import Mathlib

/-!
Verification development for the `pyppeteer/connection.py` module: a shallow
embedding of the `Connection` / `CDPSession` classes and their message
dispatch, send, and disposal logic, followed by theorems about the claims of
the specification.

Modelling conventions:
* Python objects live on explicit heaps addressed by natural-number handles,
  mirroring Python reference semantics: `World.sessHeap` holds every
  `CDPSession` object ever created (keyed by handle), and `World.futures`
  holds every `asyncio.Future` created by `send` (keyed by a future handle).
  A callback table (`_callbacks` dict) maps a request id to the handle of the
  future stored under that id; clearing a table does not destroy the future,
  which the caller still awaits — exactly as in Python.
* Python dicts become association lists preserving insertion order
  (`alookup` / `aset` / filter model `d.get`, `d[k] = v`, `d.pop`).
* JSON values are modelled by `JVal`; only the message fields the code reads
  are given structured form (`Msg`, `MsgParams`).
* Coroutine scheduling is made atomic: each source-level handler
  (`_on_message`, `_on_close`, the `ConnectionClosed` branch of
  `_async_send`, ...) is one step function on `World`.
-/

/-- A JSON value (payloads carried in `result`, `params`, ...). -/
inductive JVal where
  | null
  | bool (b : Bool)
  | num (n : Int)
  | str (s : String)
  deriving Repr, DecidableEq

/-- The `error` object of a response: `{"message": ..., "data"?: ...}`.
`data` is kept in its rendered (`str(...)`) form, which is how
`_createProtocolError` interpolates it into the message. -/
structure ProtoError where
  message : String
  data : Option String
  deriving Repr, DecidableEq

/-- The fields of a message's `params` object that the code reads:
`params.get('sessionId')` and `params['targetInfo']['type']` (the latter is
`none` when `targetInfo` or its `type` key is missing, in which case the
source raises `KeyError`). -/
structure MsgParams where
  sessionId : Option String
  targetInfoType : Option String
  deriving Repr, DecidableEq

/-- A decoded inbound protocol message, as read by `_on_message`. -/
structure Msg where
  id : Option Nat
  method : Option String
  params : MsgParams
  result : Option JVal
  error : Option ProtoError
  sessionId : Option String
  deriving Repr, DecidableEq

/-- An event published on a `pyee` emitter (`Connection` or `CDPSession`). -/
inductive Event where
  | disconnected
  | notif (method : Option String) (params : MsgParams)
  deriving Repr, DecidableEq

/-- The settlement state of an `asyncio.Future` returned by `send`. -/
inductive CbState where
  | pending
  | resolved (v : Option JVal)
  | rejected (msg : String)
  deriving Repr, DecidableEq

/-- A pending-request future: the `asyncio.Future` together with the
`callback.method` attribute attached by `send` (the `callback.error`
attribute is a `NetworkError` whose message `_rewriteError` replaces, so only
the message is modelled). -/
structure Future where
  method : String
  state : CbState
  deriving Repr, DecidableEq

/-- A serialized request handed to `_async_send` (the transport outbox). -/
structure SentMsg where
  id : Nat
  method : String
  sessionId : Option String
  deriving Repr, DecidableEq

/-- The mutable state of one `CDPSession` object. `callbacks` maps request id
to future handle; `hasConn` is `self._connection is not None`; `children` is
the session's own `_sessions` dict (child session id to session handle). -/
structure SessState where
  lastId : Nat
  callbacks : List (Nat × Nat)
  hasConn : Bool
  targetType : String
  sessionId : Option String
  children : List (String × Nat)
  events : List Event
  deriving Repr, DecidableEq

/-- The mutable state of the `Connection` object. `sessions` maps a session
id (the value of `params.get('sessionId')`, which can be `None`) to a session
handle. `closeCallbackSet` is `self._closeCallback is not None`;
`closeCallbackCalls` counts its invocations. -/
structure ConnState where
  lastId : Nat
  callbacks : List (Nat × Nat)
  connected : Bool
  sessions : List (Option String × Nat)
  closeCallbackSet : Bool
  closeCallbackCalls : Nat
  events : List Event
  deriving Repr, DecidableEq

/-- The whole program state: the connection, the heap of session objects, the
heap of futures, and the outbox of serialized requests. -/
structure World where
  conn : ConnState
  sessHeap : List (Nat × SessState)
  nextH : Nat
  futures : List (Nat × Future)
  nextF : Nat
  outbox : List SentMsg
  deriving Repr, DecidableEq

/-- `d.get(k)` on an insertion-ordered dict. -/
def alookup {α β : Type} [DecidableEq α] : List (α × β) → α → Option β
  | [], _ => none
  | (k, v) :: rest, a => if k = a then some v else alookup rest a

/-- `d[k] = v`: overwrite in place when the key exists, else append. -/
def aset {α β : Type} [DecidableEq α] (l : List (α × β)) (a : α) (b : β) :
    List (α × β) :=
  if (alookup l a).isSome then
    l.map (fun kv => if kv.1 = a then (a, b) else kv)
  else l ++ [(a, b)]

/-- The message `_on_close` / `_on_closed` reject pending requests with:
`f'Protocol error {cb.method}: Target closed.'` -/
def targetClosedMsg (method : String) : String :=
  "Protocol error " ++ method ++ ": Target closed."

/-- The message built by `_createProtocolError`. -/
def protocolErrorMsg (method : String) (e : ProtoError) : String :=
  let m := "Protocol error (" ++ method ++ "): " ++ e.message
  match e.data with
  | some d => m ++ " " ++ d
  | none => m

/-- The message `CDPSession.send` raises once `self._connection` is `None`. -/
def sessionClosedMsg (method targetType : String) : String :=
  "Protocol Error (" ++ method ++ "): Session closed. Most likely the " ++
    targetType ++ " has been closed."

/-- Apply a state transformation to the future stored at handle `fh`. -/
def setFutureState (w : World) (fh : Nat) (f : Future → CbState) : World :=
  { w with futures :=
      w.futures.map (fun p => (p.1, if p.1 = fh then ⟨p.2.method, f p.2⟩ else p.2)) }

/-- One iteration of the rejection loop in `_on_close` / `_on_closed`:
`if not cb.done(): cb.set_exception(_rewriteError(cb.error,
f'Protocol error {cb.method}: Target closed.'))`. -/
def settleTargetClosed (w : World) (fh : Nat) : World :=
  setFutureState w fh (fun fut =>
    if fut.state = .pending then .rejected (targetClosedMsg fut.method)
    else fut.state)

/-- Reject (if still pending) every future in a list of callback values. -/
def settleAllTC (w : World) (fhs : List Nat) : World :=
  fhs.foldl settleTargetClosed w

/-- `Connection._rawSend`: allocate `self._lastId + 1`, serialize, and create
the `_async_send` task (the serialized request goes to the outbox). -/
def Connection.rawSend (w : World) (sessionId : Option String)
    (method : String) : Nat × World :=
  let i := w.conn.lastId + 1
  (i, { w with conn := { w.conn with lastId := i },
               outbox := w.outbox ++ [⟨i, method, sessionId⟩] })

/-- `Connection.send`: raises `ConnectionError('Connection is closed')` when
`self._lastId` is truthy and the connection is not connected; otherwise calls
`_rawSend` and registers a fresh pending future under the new id. -/
def Connection.send (w : World) (method : String) :
    Except String (Nat × World) :=
  if w.conn.lastId ≠ 0 ∧ ¬ w.conn.connected then
    .error "Connection is closed"
  else
    let p := Connection.rawSend w none method
    let i := p.1
    let w1 := p.2
    let fh := w1.nextF
    .ok (i, { w1 with
      conn := { w1.conn with callbacks := w1.conn.callbacks ++ [(i, fh)] },
      futures := w1.futures ++ [(fh, ⟨method, .pending⟩)],
      nextF := fh + 1 })

/-- `Connection._on_response`: pop the callback stored under `msg['id']` and
settle it — reject with `_createProtocolError` when `msg.get('error')` is a
(non-empty, hence truthy) error object, else resolve with
`msg.get('result')`. The `none` branches correspond to a `KeyError` from
`pop`, which the guard in `_on_message` makes unreachable. -/
def Connection.onResponse (w : World) (msg : Msg) : World :=
  match msg.id with
  | none => w
  | some i =>
    match alookup w.conn.callbacks i with
    | none => w
    | some fh =>
      let w1 := { w with conn := { w.conn with
        callbacks := w.conn.callbacks.filter (fun p => p.1 != i) } }
      match msg.error with
      | some e =>
        setFutureState w1 fh (fun fut => .rejected (protocolErrorMsg fut.method e))
      | none => setFutureState w1 fh (fun _ => .resolved msg.result)

/-- `CDPSession._on_message`: settle the locally pending request when the
message id is truthy and present in `self._callbacks`, otherwise publish the
message on the session's emitter. On the error path `set_exception` is
unconditional; on the success path `set_result` is guarded by
`not callback.done()`. -/
def CDPSession.onMessage (s : SessState) (w : World) (msg : Msg) :
    SessState × World :=
  let emit := ({ s with events := s.events ++ [.notif msg.method msg.params] }, w)
  match msg.id with
  | none => emit
  | some i =>
    if i = 0 then emit
    else
      match alookup s.callbacks i with
      | none => emit
      | some fh =>
        let s' := { s with callbacks := s.callbacks.filter (fun p => p.1 != i) }
        match msg.error with
        | some e =>
          (s', setFutureState w fh (fun fut =>
            .rejected (protocolErrorMsg fut.method e)))
        | none =>
          (s', setFutureState w fh (fun fut =>
            if fut.state = .pending then .resolved msg.result else fut.state))

/-- The session-object state after `_on_closed`: pending table cleared,
parent reference cleared, one more `Disconnected` event. -/
def closedSess (s : SessState) : SessState :=
  ⟨s.lastId, [], false, s.targetType, s.sessionId, s.children,
    s.events ++ [.disconnected]⟩

/-- `CDPSession._on_closed`: reject every still-pending local request with a
target-closed error, clear the pending table, clear the parent reference,
and emit `Disconnected`. Note: the session's own `_sessions` children are
not visited. -/
def CDPSession.onClosed (s : SessState) (w : World) : SessState × World :=
  (closedSess s, settleAllTC w (s.callbacks.map Prod.snd))

/-- Look up the session object at handle `h` and run an in-place method on
it, storing the updated object back on the heap. -/
def heapApply (w : World) (h : Nat)
    (f : SessState → World → SessState × World) : World :=
  match alookup w.sessHeap h with
  | none => w
  | some s =>
    let p := f s w
    { p.2 with sessHeap := aset p.2.sessHeap h p.1 }

/-- `CDPSession.send`: raises the session-closed `NetworkError` when
`self._connection` is `None`; otherwise delegates to the root connection's
`_rawSend` (tagging the envelope with this session's id) and registers a
fresh pending future in the session's own table. -/
def CDPSession.sendCore (s : SessState) (w : World) (method : String) :
    Except String (Nat × SessState × World) :=
  if ¬ s.hasConn then
    .error (sessionClosedMsg method s.targetType)
  else
    let p := Connection.rawSend w s.sessionId method
    let i := p.1
    let w1 := p.2
    let fh := w1.nextF
    .ok (i, { s with callbacks := s.callbacks ++ [(i, fh)] },
         { w1 with futures := w1.futures ++ [(fh, ⟨method, .pending⟩)],
                   nextF := fh + 1 })

/-- `CDPSession.send` invoked through a heap handle. The first `error`
branch is heap-model plumbing: handles held by callers always denote live
heap entries, since the heap never shrinks. -/
def CDPSession.send (w : World) (h : Nat) (method : String) :
    Except String (Nat × World) :=
  match alookup w.sessHeap h with
  | none => .error "no such session handle"
  | some s =>
    match CDPSession.sendCore s w method with
    | .error e => .error e
    | .ok (i, s', w') => .ok (i, { w' with sessHeap := aset w'.sessHeap h s' })

/-- The `Target.attachedToTarget` branch of `Connection._on_message`:
`self._sessions[sessionId] = CDPSession(self, params['targetInfo']['type'],
sessionId, self._loop)`. -/
def attachSession (w : World) (psid : Option String) (tt : String) : World :=
  let h := w.nextH
  { w with nextH := h + 1,
           sessHeap := w.sessHeap ++ [(h, ⟨0, [], true, tt, psid, [], []⟩)],
           conn := { w.conn with sessions := aset w.conn.sessions psid h } }

/-- The `Target.detachedFromTarget` branch of `Connection._on_message`:
`session = self._sessions.pop(sessionId, None); if session:
session._on_closed()`. -/
def detachSession (w : World) (psid : Option String) : World :=
  match alookup w.conn.sessions psid with
  | none => w
  | some h =>
    let w1 := { w with conn := { w.conn with
      sessions := w.conn.sessions.filter (fun p => p.1 != psid) } }
    heapApply w1 h CDPSession.onClosed

/-- `self.emit(method, params)` on the connection's emitter. -/
def connEmit (w : World) (method : String) (params : MsgParams) : World :=
  { w with conn := { w.conn with
      events := w.conn.events ++ [.notif (some method) params] } }

/-- The tail of `Connection._on_message`: `elif msg.get('id') in
self._callbacks: self._on_response(msg) else: self.emit(method, params)`. -/
def connFallback (w : World) (msg : Msg) : World :=
  match msg.id with
  | some i =>
    if (alookup w.conn.callbacks i).isSome then Connection.onResponse w msg
    else connEmit w (msg.method.getD "") msg.params
  | none => connEmit w (msg.method.getD "") msg.params

/-- The routing tail of `Connection._on_message`: `if msg.get('sessionId'):
...` — the truthiness test means an empty-string session id falls through to
the connection's own dispatch (`connFallback`); a frame addressed to an
unregistered session is dropped. -/
def routePhase (w : World) (msg : Msg) : World :=
  match msg.sessionId with
  | some sid =>
    if sid = "" then connFallback w msg
    else
      match alookup w.conn.sessions (some sid) with
      | some h => heapApply w h (fun s w => CDPSession.onMessage s w msg)
      | none => w
  | none => connFallback w msg

/-- `Connection._on_message`: the attach/detach prelude followed by the
routing tail. Returns `none` when handling the message raises (only
possible here via the `KeyError` on `params['targetInfo']['type']` in the
attach branch); the receive loop catches that exception. -/
def Connection.onMessage (w : World) (msg : Msg) : Option World :=
  let method := msg.method.getD ""
  if method = "Target.attachedToTarget" then
    match msg.params.targetInfoType with
    | none => none
    | some tt => some (routePhase (attachSession w msg.params.sessionId tt) msg)
  else if method = "Target.detachedFromTarget" then
    some (routePhase (detachSession w msg.params.sessionId) msg)
  else some (routePhase w msg)

/-- The cascade in `_on_close`: `for session in self._sessions.values():
session._on_closed()`. -/
def closeSessions (w : World) (regs : List (Option String × Nat)) : World :=
  regs.foldl (fun w p => heapApply w p.2 CDPSession.onClosed) w

/-- The first statements of `Connection._on_close`: `if self._closeCallback:
self._closeCallback(); self._closeCallback = None`. -/
def closeCallbackStage (w : World) : World :=
  if w.conn.closeCallbackSet then
    { w with conn := { w.conn with
        closeCallbackSet := false,
        closeCallbackCalls := w.conn.closeCallbackCalls + 1 } }
  else w

/-- The rest of `Connection._on_close`: reject every still-pending request in
the connection's table and clear it, close every registered session and clear
the registry, then emit `Disconnected`. -/
def connTeardown (w : World) : World :=
  let w2 := settleAllTC w (w.conn.callbacks.map Prod.snd)
  let w3 := { w2 with conn := { w2.conn with callbacks := [] } }
  let w4 := closeSessions w3 w3.conn.sessions
  let w5 := { w4 with conn := { w4.conn with sessions := [] } }
  { w5 with conn := { w5.conn with events := w5.conn.events ++ [.disconnected] } }

/-- `Connection._on_close`: invoke the close callback (once), then reject
pending requests, cascade closure to sessions, and emit `Disconnected`. -/
def Connection.onClose (w : World) : World :=
  connTeardown (closeCallbackStage w)

/-- `Connection.dispose`: `self._connected = False; await self._on_close()`. -/
def Connection.dispose (w : World) : World :=
  Connection.onClose { w with conn := { w.conn with connected := false } }

/-- The `websockets.ConnectionClosed` branch of `Connection._async_send`:
`callback = self._callbacks.get(callback_id, None); if callback and not
callback.done(): callback.set_result(None); await self.dispose()`. -/
def Connection.asyncSendFail (w : World) (i : Nat) : World :=
  match alookup w.conn.callbacks i with
  | none => w
  | some fh =>
    match alookup w.futures fh with
    | none => w
    | some fut =>
      if fut.state = .pending then
        Connection.dispose (setFutureState w fh (fun _ => .resolved none))
      else w

/-- `CDPSession._createSession`: build a child `CDPSession` whose parent
reference is `self._connection` and register it in the session's own
`_sessions` dict. The child is *not* added to the connection's registry. -/
def CDPSession.createSession (w : World) (h : Nat) (targetType sid : String) :
    World :=
  heapApply w h (fun s w =>
    let ch := w.nextH
    (⟨s.lastId, s.callbacks, s.hasConn, s.targetType, s.sessionId,
      aset s.children sid ch, s.events⟩,
     { w with nextH := ch + 1,
              sessHeap := w.sessHeap ++
                [(ch, ⟨0, [], s.hasConn, targetType, some sid, [], []⟩)] }))

/-- `Connection.setClosedCallback`. -/
def Connection.setClosedCallback (w : World) : World :=
  { w with conn := { w.conn with closeCallbackSet := true } }

/-- `self._connected = True` at the top of `_recv_loop` (the transport
reports connected). -/
def setConnected (w : World) : World :=
  { w with conn := { w.conn with connected := true } }

/-- One inbound frame as seen by the receive loop: a decoded message, a
frame whose decoding/handling raises an ordinary exception (e.g. invalid
JSON), or a transport-closed signal. -/
inductive Frame where
  | frame (msg : Msg)
  | malformed
  | closed
  deriving Repr, DecidableEq

/-- The `while self._connected:` body of `Connection._recv_loop`. A caught
exception (`ConnectionClosed`, `ConnectionResetError`, or any other) breaks
the loop, after which `if self._connected:` schedules `dispose`. Exhausting
the frame list models the loop still blocked in `recv()`. -/
def recvLoopGo (w : World) : List Frame → World
  | [] => w
  | f :: rest =>
    if w.conn.connected then
      match f with
      | .closed => Connection.dispose w
      | .malformed => Connection.dispose w
      | .frame m =>
        match Connection.onMessage w m with
        | some w' => recvLoopGo w' rest
        | none => Connection.dispose w
    else w

/-- `Connection._recv_loop`: sets `self._connected = True` on entering the
`async with`, then runs the dispatch loop. -/
def recvLoop (w : World) (frames : List Frame) : World :=
  recvLoopGo (setConnected w) frames

/-- A scheduler-level operation on the system, for reasoning about every
reachable state. `inbound` is one receive-loop iteration (a raised
exception breaks the loop and disposes, per `_recv_loop`). -/
inductive Op where
  | connSend (method : String)
  | sessSend (h : Nat) (method : String)
  | inbound (msg : Msg)
  | dispose
  | setConnected
  | setClosedCallback
  | asyncSendFail (i : Nat)
  | createChild (h : Nat) (targetType sid : String)
  deriving Repr, DecidableEq

def step (w : World) : Op → World
  | .connSend m =>
    match Connection.send w m with
    | .ok p => p.2
    | .error _ => w
  | .sessSend h m =>
    match CDPSession.send w h m with
    | .ok p => p.2
    | .error _ => w
  | .inbound msg =>
    match Connection.onMessage w msg with
    | some w' => w'
    | none => if w.conn.connected then Connection.dispose w else w
  | .dispose => Connection.dispose w
  | .setConnected => setConnected w
  | .setClosedCallback => Connection.setClosedCallback w
  | .asyncSendFail i => Connection.asyncSendFail w i
  | .createChild h tt sid => CDPSession.createSession w h tt sid

def run (w : World) (ops : List Op) : World := ops.foldl step w

/-- The state of a freshly constructed `Connection` (`__init__`). -/
def initWorld : World :=
  { conn := ⟨0, [], false, [], false, 0, []⟩,
    sessHeap := [], nextH := 0, futures := [], nextF := 0, outbox := [] }

/-- All request ids outstanding in any callback table (the connection's and
every session's), in table order. -/
def World.tableIds (w : World) : List Nat :=
  w.conn.callbacks.map Prod.fst ++
    (w.sessHeap.map (fun p => p.2.callbacks.map Prod.fst)).flatten


/-! ### Association-list lemmas -/

theorem alookup_append_left {α β : Type} [DecidableEq α] {l1 : List (α × β)}
    (l2 : List (α × β)) {k : α} {v : β} (h : alookup l1 k = some v) :
    alookup (l1 ++ l2) k = some v := by
  induction l1 with
  | nil => simp [alookup] at h
  | cons p rest ih =>
    simp only [alookup, List.cons_append] at h ⊢
    split at h
    · simp_all
    · simp [*, ih h]

theorem alookup_append_right {α β : Type} [DecidableEq α] {l1 : List (α × β)}
    (l2 : List (α × β)) {k : α} (h : alookup l1 k = none) :
    alookup (l1 ++ l2) k = alookup l2 k := by
  induction l1 with
  | nil => simp
  | cons p rest ih =>
    simp only [alookup, List.cons_append] at h ⊢
    split at h
    · exact absurd h (by simp)
    · simp [*, ih h]

theorem alookup_map_set_self {α β : Type} [DecidableEq α] (l : List (α × β))
    (a : α) (b : β) :
    alookup (l.map (fun kv => if kv.1 = a then (a, b) else kv)) a =
      (alookup l a).map (fun _ => b) := by
  induction l with
  | nil => simp [alookup]
  | cons p rest ih =>
    by_cases hp : p.1 = a
    · simp only [List.map_cons]
      rw [if_pos hp]
      simp [alookup, hp]
    · simp only [List.map_cons]
      rw [if_neg hp]
      simp [alookup, hp, ih]

theorem alookup_map_set_ne {α β : Type} [DecidableEq α] (l : List (α × β))
    {a k : α} (b : β) (h : ¬ k = a) :
    alookup (l.map (fun kv => if kv.1 = a then (a, b) else kv)) k =
      alookup l k := by
  induction l with
  | nil => simp
  | cons p rest ih =>
    by_cases hp : p.1 = a
    · have h1 : ¬ a = k := fun hh => h hh.symm
      have h2 : ¬ p.1 = k := by rw [hp]; exact h1
      simp only [List.map_cons]
      rw [if_pos hp]
      simp [alookup, h1, h2, ih]
    · simp only [List.map_cons]
      rw [if_neg hp]
      simp [alookup, ih]

theorem alookup_aset_self {α β : Type} [DecidableEq α] (l : List (α × β))
    (a : α) (b : β) : alookup (aset l a b) a = some b := by
  unfold aset
  split
  · next hs =>
    rw [alookup_map_set_self]
    cases hv : alookup l a with
    | none => rw [hv] at hs; simp at hs
    | some v => simp
  · next hs =>
    have hn : alookup l a = none := by
      cases hv : alookup l a with
      | none => rfl
      | some v => rw [hv] at hs; simp at hs
    rw [alookup_append_right _ hn]
    simp [alookup]

theorem alookup_aset_ne {α β : Type} [DecidableEq α] (l : List (α × β))
    {a k : α} (b : β) (h : ¬ k = a) :
    alookup (aset l a b) k = alookup l k := by
  unfold aset
  split
  · exact alookup_map_set_ne l b h
  · cases hv : alookup l k with
    | none =>
      rw [alookup_append_right _ hv]
      have h1 : ¬ a = k := fun hh => h hh.symm
      simp [alookup, h1]
    | some v => exact alookup_append_left _ hv

/-! ### Future-settlement lemmas -/

theorem alookup_map_adjust {β : Type} {α : Type} [DecidableEq α]
    (l : List (α × β)) (g : β → β) (a j : α) :
    alookup (l.map (fun p => (p.1, if p.1 = a then g p.2 else p.2))) j =
      (alookup l j).map (fun v => if j = a then g v else v) := by
  induction l with
  | nil => simp [alookup]
  | cons p rest ih =>
    simp only [List.map_cons, alookup]
    by_cases hpj : p.1 = j
    · subst hpj
      simp
    · simp [hpj, ih]

theorem setFutureState_conn (w : World) (fh : Nat) (f : Future → CbState) :
    (setFutureState w fh f).conn = w.conn := rfl

theorem setFutureState_sessHeap (w : World) (fh : Nat) (f : Future → CbState) :
    (setFutureState w fh f).sessHeap = w.sessHeap := rfl

theorem alookup_setFutureState (w : World) (fh : Nat) (f : Future → CbState)
    (j : Nat) :
    alookup (setFutureState w fh f).futures j =
      (alookup w.futures j).map
        (fun fut => if j = fh then ⟨fut.method, f fut⟩ else fut) :=
  alookup_map_adjust w.futures (fun fut => ⟨fut.method, f fut⟩) fh j

theorem settleAllTC_cons (w : World) (f : Nat) (rest : List Nat) :
    settleAllTC w (f :: rest) = settleAllTC (settleTargetClosed w f) rest := rfl

theorem settleAllTC_conn (fhs : List Nat) (w : World) :
    (settleAllTC w fhs).conn = w.conn := by
  induction fhs generalizing w with
  | nil => rfl
  | cons f rest ih => rw [settleAllTC_cons, ih]; rfl

theorem settleAllTC_sessHeap (fhs : List Nat) (w : World) :
    (settleAllTC w fhs).sessHeap = w.sessHeap := by
  induction fhs generalizing w with
  | nil => rfl
  | cons f rest ih => rw [settleAllTC_cons, ih]; rfl

theorem settleTargetClosed_lookup_self {w : World} {j : Nat} {fut : Future}
    (hj : alookup w.futures j = some fut) :
    alookup (settleTargetClosed w j).futures j =
      some (if fut.state = .pending
            then ⟨fut.method, .rejected (targetClosedMsg fut.method)⟩
            else fut) := by
  rw [settleTargetClosed, alookup_setFutureState, hj]
  obtain ⟨m, st⟩ := fut
  by_cases hs : st = .pending
  · simp [hs]
  · simp [hs]

theorem settleTargetClosed_lookup_ne {w : World} {j f : Nat} (h : ¬ j = f) :
    alookup (settleTargetClosed w f).futures j = alookup w.futures j := by
  rw [settleTargetClosed, alookup_setFutureState]
  cases alookup w.futures j <;> simp [h]

theorem settleAllTC_preserved {fhs : List Nat} {w : World} {j : Nat}
    {fut : Future} (hj : alookup w.futures j = some fut)
    (hs : ¬ fut.state = .pending) :
    alookup (settleAllTC w fhs).futures j = some fut := by
  induction fhs generalizing w with
  | nil => exact hj
  | cons f rest ih =>
    rw [settleAllTC_cons]
    by_cases hjf : j = f
    · subst hjf
      refine ih ?_
      rw [settleTargetClosed_lookup_self hj, if_neg hs]
    · refine ih ?_
      rw [settleTargetClosed_lookup_ne hjf]
      exact hj

theorem settleAllTC_not_mem {fhs : List Nat} {w : World} {j : Nat}
    (hmem : j ∉ fhs) :
    alookup (settleAllTC w fhs).futures j = alookup w.futures j := by
  induction fhs generalizing w with
  | nil => rfl
  | cons f rest ih =>
    rw [settleAllTC_cons, ih (fun hc => hmem (List.mem_cons_of_mem _ hc))]
    exact settleTargetClosed_lookup_ne (fun he => hmem (he ▸ List.mem_cons_self _ _))

theorem settleAllTC_mem {fhs : List Nat} {w : World} {j : Nat} {m : String}
    (hj : alookup w.futures j = some ⟨m, .pending⟩) (hmem : j ∈ fhs) :
    alookup (settleAllTC w fhs).futures j =
      some ⟨m, .rejected (targetClosedMsg m)⟩ := by
  induction fhs generalizing w with
  | nil => cases hmem
  | cons f rest ih =>
    rw [settleAllTC_cons]
    by_cases hjf : j = f
    · subst hjf
      have h1 : alookup (settleTargetClosed w j).futures j =
          some ⟨m, .rejected (targetClosedMsg m)⟩ := by
        rw [settleTargetClosed_lookup_self hj]
        simp
      exact settleAllTC_preserved h1 (by simp)
    · have h1 : alookup (settleTargetClosed w f).futures j = some ⟨m, .pending⟩ := by
        rw [settleTargetClosed_lookup_ne hjf]; exact hj
      have hmem' : j ∈ rest := by
        rcases List.mem_cons.mp hmem with he | hr
        · exact absurd he hjf
        · exact hr
      exact ih h1 hmem'

theorem settleAllTC_fate {fhs : List Nat} {w : World} {j : Nat} {m : String}
    (hj : alookup w.futures j = some ⟨m, .pending⟩) :
    alookup (settleAllTC w fhs).futures j = some ⟨m, .pending⟩ ∨
    alookup (settleAllTC w fhs).futures j =
      some ⟨m, .rejected (targetClosedMsg m)⟩ := by
  by_cases hmem : j ∈ fhs
  · exact Or.inr (settleAllTC_mem hj hmem)
  · exact Or.inl ((settleAllTC_not_mem hmem).trans hj)

/-! ### Session-closure cascade lemmas -/

theorem heapApply_none {w : World} {h : Nat}
    (f : SessState → World → SessState × World)
    (hn : alookup w.sessHeap h = none) : heapApply w h f = w := by
  rw [heapApply, hn]

theorem heapApply_onClosed_some {w : World} {h : Nat} {s : SessState}
    (hs : alookup w.sessHeap h = some s) :
    heapApply w h CDPSession.onClosed =
      { settleAllTC w (s.callbacks.map Prod.snd) with
        sessHeap := aset w.sessHeap h (closedSess s) } := by
  rw [heapApply, hs]
  show { settleAllTC w (s.callbacks.map Prod.snd) with
    sessHeap := aset (settleAllTC w (s.callbacks.map Prod.snd)).sessHeap h
      (closedSess s) } = _
  rw [settleAllTC_sessHeap]

theorem closeSessions_nil (w : World) : closeSessions w [] = w := rfl

theorem closeSessions_cons (w : World) (r : Option String × Nat)
    (rest : List (Option String × Nat)) :
    closeSessions w (r :: rest) =
      closeSessions (heapApply w r.2 CDPSession.onClosed) rest := rfl

theorem heapApply_onClosed_conn (w : World) (h : Nat) :
    (heapApply w h CDPSession.onClosed).conn = w.conn := by
  cases hs : alookup w.sessHeap h with
  | none => rw [heapApply_none _ hs]
  | some s => rw [heapApply_onClosed_some hs]; exact settleAllTC_conn _ _

theorem heapApply_onClosed_futures (w : World) {h : Nat} (j : Nat) :
    alookup (heapApply w h CDPSession.onClosed).futures j =
      match alookup w.sessHeap h with
      | none => alookup w.futures j
      | some s => alookup (settleAllTC w (s.callbacks.map Prod.snd)).futures j := by
  cases hs : alookup w.sessHeap h with
  | none => rw [heapApply_none _ hs]
  | some s => rw [heapApply_onClosed_some hs]

theorem closeSessions_conn (regs : List (Option String × Nat)) (w : World) :
    (closeSessions w regs).conn = w.conn := by
  induction regs generalizing w with
  | nil => rfl
  | cons r rest ih =>
    rw [closeSessions_cons, ih, heapApply_onClosed_conn]

theorem closeSessions_preserved {regs : List (Option String × Nat)} {w : World}
    {j : Nat} {fut : Future} (hj : alookup w.futures j = some fut)
    (hs : ¬ fut.state = .pending) :
    alookup (closeSessions w regs).futures j = some fut := by
  induction regs generalizing w with
  | nil => exact hj
  | cons r rest ih =>
    rw [closeSessions_cons]
    refine ih ?_
    rw [heapApply_onClosed_futures]
    cases hh : alookup w.sessHeap r.2 with
    | none => exact hj
    | some s => exact settleAllTC_preserved hj hs

theorem closeSessions_fate {regs : List (Option String × Nat)} {w : World}
    {j : Nat} {m : String} (hj : alookup w.futures j = some ⟨m, .pending⟩) :
    alookup (closeSessions w regs).futures j = some ⟨m, .pending⟩ ∨
    alookup (closeSessions w regs).futures j =
      some ⟨m, .rejected (targetClosedMsg m)⟩ := by
  induction regs generalizing w with
  | nil => exact Or.inl hj
  | cons r rest ih =>
    rw [closeSessions_cons]
    have hstep : alookup (heapApply w r.2 CDPSession.onClosed).futures j =
        some ⟨m, .pending⟩ ∨
        alookup (heapApply w r.2 CDPSession.onClosed).futures j =
        some ⟨m, .rejected (targetClosedMsg m)⟩ := by
      rw [heapApply_onClosed_futures]
      cases hh : alookup w.sessHeap r.2 with
      | none => exact Or.inl hj
      | some s => exact settleAllTC_fate hj
    rcases hstep with hp | hr
    · exact ih hp
    · exact Or.inr (closeSessions_preserved hr (by simp))

theorem closeSessions_heap_not_mem {regs : List (Option String × Nat)}
    {w : World} {h : Nat} (hmem : h ∉ regs.map Prod.snd) :
    alookup (closeSessions w regs).sessHeap h = alookup w.sessHeap h := by
  induction regs generalizing w with
  | nil => rfl
  | cons r rest ih =>
    rw [closeSessions_cons]
    have hne : ¬ h = r.2 := by
      intro he
      exact hmem (by simp [he])
    have hrest : h ∉ rest.map Prod.snd := by
      intro hc
      exact hmem (by simp [hc])
    rw [ih hrest]
    cases hs : alookup w.sessHeap r.2 with
    | none => rw [heapApply_none _ hs]
    | some s =>
      rw [heapApply_onClosed_some hs]
      exact alookup_aset_ne _ _ hne

theorem closeSessions_closed_mem {regs : List (Option String × Nat)}
    {w : World} {p : Option String × Nat} {s : SessState}
    (hnd : (regs.map Prod.snd).Nodup) (hp : p ∈ regs)
    (hs : alookup w.sessHeap p.2 = some s) :
    alookup (closeSessions w regs).sessHeap p.2 = some (closedSess s) := by
  induction regs generalizing w with
  | nil => cases hp
  | cons r rest ih =>
    rw [closeSessions_cons]
    rw [List.map_cons, List.nodup_cons] at hnd
    by_cases hh : p.2 = r.2
    · rw [hh] at hs ⊢
      rw [heapApply_onClosed_some hs]
      have hlook : alookup (aset w.sessHeap r.2 (closedSess s)) r.2 =
          some (closedSess s) := alookup_aset_self _ _ _
      have hout : r.2 ∉ rest.map Prod.snd := hnd.1
      calc alookup (closeSessions
              { settleAllTC w (s.callbacks.map Prod.snd) with
                sessHeap := aset w.sessHeap r.2 (closedSess s) } rest).sessHeap r.2
          = alookup (aset w.sessHeap r.2 (closedSess s)) r.2 :=
            closeSessions_heap_not_mem hout
        _ = some (closedSess s) := hlook
    · have hp' : p ∈ rest := by
        rcases List.mem_cons.mp hp with he | hr
        · exact absurd (by rw [he]) hh
        · exact hr
      refine ih hnd.2 hp' ?_
      cases hr2 : alookup w.sessHeap r.2 with
      | none => rw [heapApply_none _ hr2]; exact hs
      | some s2 =>
        rw [heapApply_onClosed_some hr2]
        show alookup (aset w.sessHeap r.2 (closedSess s2)) p.2 = some s
        rw [alookup_aset_ne _ _ hh]
        exact hs

theorem closeSessions_rejects {regs : List (Option String × Nat)} {w : World}
    {p : Option String × Nat} {s : SessState} {fh : Nat} {m : String}
    (hnd : (regs.map Prod.snd).Nodup) (hp : p ∈ regs)
    (hs : alookup w.sessHeap p.2 = some s) (hfh : fh ∈ s.callbacks.map Prod.snd)
    (hfut : alookup w.futures fh = some ⟨m, .pending⟩) :
    alookup (closeSessions w regs).futures fh =
      some ⟨m, .rejected (targetClosedMsg m)⟩ := by
  induction regs generalizing w with
  | nil => cases hp
  | cons r rest ih =>
    rw [closeSessions_cons]
    rw [List.map_cons, List.nodup_cons] at hnd
    by_cases hh : p.2 = r.2
    · rw [hh] at hs
      have h1 : alookup (heapApply w r.2 CDPSession.onClosed).futures fh =
          some ⟨m, .rejected (targetClosedMsg m)⟩ := by
        rw [heapApply_onClosed_futures, hs]
        exact settleAllTC_mem hfut hfh
      exact closeSessions_preserved h1 (by simp)
    · have hp' : p ∈ rest := by
        rcases List.mem_cons.mp hp with he | hr
        · exact absurd (by rw [he]) hh
        · exact hr
      have hsafter : alookup (heapApply w r.2 CDPSession.onClosed).sessHeap p.2 =
          some s := by
        cases hr2 : alookup w.sessHeap r.2 with
        | none => rw [heapApply_none _ hr2]; exact hs
        | some s2 =>
          rw [heapApply_onClosed_some hr2]
          show alookup (aset w.sessHeap r.2 (closedSess s2)) p.2 = some s
          rw [alookup_aset_ne _ _ hh]
          exact hs
      have hstep : alookup (heapApply w r.2 CDPSession.onClosed).futures fh =
          some ⟨m, .pending⟩ ∨
          alookup (heapApply w r.2 CDPSession.onClosed).futures fh =
          some ⟨m, .rejected (targetClosedMsg m)⟩ := by
        rw [heapApply_onClosed_futures]
        cases hr2 : alookup w.sessHeap r.2 with
        | none => exact Or.inl hfut
        | some s2 => exact settleAllTC_fate hfut
      rcases hstep with hpend | hrej
      · exact ih hnd.2 hp' hsafter hpend
      · exact closeSessions_preserved hrej (by simp)

/-! ### Disposal lemmas -/

theorem closeCallbackStage_futures (w : World) :
    (closeCallbackStage w).futures = w.futures := by
  unfold closeCallbackStage; split <;> rfl

theorem closeCallbackStage_sessHeap (w : World) :
    (closeCallbackStage w).sessHeap = w.sessHeap := by
  unfold closeCallbackStage; split <;> rfl

theorem closeCallbackStage_callbacks (w : World) :
    (closeCallbackStage w).conn.callbacks = w.conn.callbacks := by
  unfold closeCallbackStage; split <;> rfl

theorem closeCallbackStage_sessions (w : World) :
    (closeCallbackStage w).conn.sessions = w.conn.sessions := by
  unfold closeCallbackStage; split <;> rfl

theorem closeCallbackStage_connected (w : World) :
    (closeCallbackStage w).conn.connected = w.conn.connected := by
  unfold closeCallbackStage; split <;> rfl

theorem closeCallbackStage_lastId (w : World) :
    (closeCallbackStage w).conn.lastId = w.conn.lastId := by
  unfold closeCallbackStage; split <;> rfl

theorem closeCallbackStage_events (w : World) :
    (closeCallbackStage w).conn.events = w.conn.events := by
  unfold closeCallbackStage; split <;> rfl

theorem closeCallbackStage_set (w : World) :
    (closeCallbackStage w).conn.closeCallbackSet = false := by
  unfold closeCallbackStage
  split
  · rfl
  · next h => simpa using h

theorem closeCallbackStage_calls (w : World) :
    (closeCallbackStage w).conn.closeCallbackCalls =
      (if w.conn.closeCallbackSet then w.conn.closeCallbackCalls + 1
       else w.conn.closeCallbackCalls) := by
  unfold closeCallbackStage
  split <;> simp [*]

theorem connTeardown_connected (w : World) :
    (connTeardown w).conn.connected = w.conn.connected := by
  simp [connTeardown, settleAllTC_conn, closeSessions_conn]

theorem connTeardown_lastId (w : World) :
    (connTeardown w).conn.lastId = w.conn.lastId := by
  simp [connTeardown, settleAllTC_conn, closeSessions_conn]

theorem connTeardown_callbacks (w : World) :
    (connTeardown w).conn.callbacks = [] := by
  simp [connTeardown, settleAllTC_conn, closeSessions_conn]

theorem connTeardown_sessions (w : World) :
    (connTeardown w).conn.sessions = [] := by
  simp [connTeardown, settleAllTC_conn, closeSessions_conn]

theorem connTeardown_set (w : World) :
    (connTeardown w).conn.closeCallbackSet = w.conn.closeCallbackSet := by
  simp [connTeardown, settleAllTC_conn, closeSessions_conn]

theorem connTeardown_calls (w : World) :
    (connTeardown w).conn.closeCallbackCalls = w.conn.closeCallbackCalls := by
  simp [connTeardown, settleAllTC_conn, closeSessions_conn]

theorem connTeardown_events (w : World) :
    (connTeardown w).conn.events = w.conn.events ++ [Event.disconnected] := by
  simp [connTeardown, settleAllTC_conn, closeSessions_conn]

theorem connTeardown_conn_pending {w : World} {fh : Nat} {m : String}
    (hfh : fh ∈ w.conn.callbacks.map Prod.snd)
    (hfut : alookup w.futures fh = some ⟨m, .pending⟩) :
    alookup (connTeardown w).futures fh =
      some ⟨m, .rejected (targetClosedMsg m)⟩ := by
  simp only [connTeardown]
  apply closeSessions_preserved _ (by simp)
  exact settleAllTC_mem hfut hfh

theorem connTeardown_preserved {w : World} {fh : Nat} {fut : Future}
    (hfut : alookup w.futures fh = some fut) (hs : ¬ fut.state = .pending) :
    alookup (connTeardown w).futures fh = some fut := by
  simp only [connTeardown]
  exact closeSessions_preserved (settleAllTC_preserved hfut hs) hs

theorem connTeardown_fate {w : World} {fh : Nat} {m : String}
    (hfut : alookup w.futures fh = some ⟨m, .pending⟩) :
    alookup (connTeardown w).futures fh = some ⟨m, .pending⟩ ∨
    alookup (connTeardown w).futures fh =
      some ⟨m, .rejected (targetClosedMsg m)⟩ := by
  simp only [connTeardown]
  rcases @settleAllTC_fate (w.conn.callbacks.map Prod.snd) _ _ _ hfut
      with hpend | hrej
  · exact closeSessions_fate hpend
  · exact Or.inr (closeSessions_preserved hrej (by simp))

theorem connTeardown_sess_rejects {w : World} {p : Option String × Nat}
    {s : SessState} {fh : Nat} {m : String}
    (hnd : (w.conn.sessions.map Prod.snd).Nodup) (hp : p ∈ w.conn.sessions)
    (hs : alookup w.sessHeap p.2 = some s)
    (hfh : fh ∈ s.callbacks.map Prod.snd)
    (hfut : alookup w.futures fh = some ⟨m, .pending⟩) :
    alookup (connTeardown w).futures fh =
      some ⟨m, .rejected (targetClosedMsg m)⟩ := by
  simp only [connTeardown, settleAllTC_conn, settleAllTC_sessHeap]
  rcases @settleAllTC_fate (w.conn.callbacks.map Prod.snd) _ _ _ hfut
      with hpend | hrej
  · exact closeSessions_rejects hnd hp hs hfh hpend
  · exact closeSessions_preserved hrej (by simp)

theorem connTeardown_heap_not_mem {w : World} {h : Nat}
    (hmem : h ∉ w.conn.sessions.map Prod.snd) :
    alookup (connTeardown w).sessHeap h = alookup w.sessHeap h := by
  simp only [connTeardown, settleAllTC_conn, settleAllTC_sessHeap]
  exact closeSessions_heap_not_mem hmem

theorem connTeardown_closed_mem {w : World} {p : Option String × Nat}
    {s : SessState} (hnd : (w.conn.sessions.map Prod.snd).Nodup)
    (hp : p ∈ w.conn.sessions) (hs : alookup w.sessHeap p.2 = some s) :
    alookup (connTeardown w).sessHeap p.2 = some (closedSess s) := by
  simp only [connTeardown, settleAllTC_conn, settleAllTC_sessHeap]
  exact closeSessions_closed_mem hnd hp hs

theorem onClose_connected (w : World) :
    (Connection.onClose w).conn.connected = w.conn.connected := by
  rw [Connection.onClose, connTeardown_connected, closeCallbackStage_connected]

theorem onClose_events (w : World) :
    (Connection.onClose w).conn.events = w.conn.events ++ [Event.disconnected] := by
  rw [Connection.onClose, connTeardown_events, closeCallbackStage_events]

theorem onClose_callbacks (w : World) :
    (Connection.onClose w).conn.callbacks = [] := by
  rw [Connection.onClose, connTeardown_callbacks]

theorem onClose_sessions (w : World) :
    (Connection.onClose w).conn.sessions = [] := by
  rw [Connection.onClose, connTeardown_sessions]

theorem onClose_set (w : World) :
    (Connection.onClose w).conn.closeCallbackSet = false := by
  rw [Connection.onClose, connTeardown_set, closeCallbackStage_set]

theorem onClose_calls (w : World) :
    (Connection.onClose w).conn.closeCallbackCalls =
      (if w.conn.closeCallbackSet then w.conn.closeCallbackCalls + 1
       else w.conn.closeCallbackCalls) := by
  rw [Connection.onClose, connTeardown_calls, closeCallbackStage_calls]

theorem dispose_connected (w : World) :
    (Connection.dispose w).conn.connected = false :=
  onClose_connected _

theorem dispose_events (w : World) :
    (Connection.dispose w).conn.events = w.conn.events ++ [Event.disconnected] :=
  onClose_events _

theorem dispose_callbacks (w : World) :
    (Connection.dispose w).conn.callbacks = [] :=
  onClose_callbacks _

theorem dispose_sessions (w : World) :
    (Connection.dispose w).conn.sessions = [] :=
  onClose_sessions _

theorem dispose_set (w : World) :
    (Connection.dispose w).conn.closeCallbackSet = false :=
  onClose_set _

theorem dispose_conn_pending {w : World} {fh : Nat} {m : String}
    (hfh : fh ∈ w.conn.callbacks.map Prod.snd)
    (hfut : alookup w.futures fh = some ⟨m, .pending⟩) :
    alookup (Connection.dispose w).futures fh =
      some ⟨m, .rejected (targetClosedMsg m)⟩ := by
  rw [Connection.dispose, Connection.onClose]
  apply connTeardown_conn_pending
  · rw [closeCallbackStage_callbacks]
    exact hfh
  · rw [closeCallbackStage_futures]
    exact hfut

theorem dispose_preserved {w : World} {fh : Nat} {fut : Future}
    (hfut : alookup w.futures fh = some fut) (hs : ¬ fut.state = .pending) :
    alookup (Connection.dispose w).futures fh = some fut := by
  rw [Connection.dispose, Connection.onClose]
  refine connTeardown_preserved ?_ hs
  rw [closeCallbackStage_futures]
  exact hfut

theorem dispose_sess_rejects {w : World} {p : Option String × Nat}
    {s : SessState} {fh : Nat} {m : String}
    (hnd : (w.conn.sessions.map Prod.snd).Nodup) (hp : p ∈ w.conn.sessions)
    (hs : alookup w.sessHeap p.2 = some s)
    (hfh : fh ∈ s.callbacks.map Prod.snd)
    (hfut : alookup w.futures fh = some ⟨m, .pending⟩) :
    alookup (Connection.dispose w).futures fh =
      some ⟨m, .rejected (targetClosedMsg m)⟩ := by
  rw [Connection.dispose, Connection.onClose]
  apply @connTeardown_sess_rejects _ _ s _ _
  · rw [closeCallbackStage_sessions]
    exact hnd
  · rw [closeCallbackStage_sessions]
    exact hp
  · rw [closeCallbackStage_sessHeap]
    exact hs
  · exact hfh
  · rw [closeCallbackStage_futures]
    exact hfut

theorem dispose_heap_not_mem {w : World} {h : Nat}
    (hmem : h ∉ w.conn.sessions.map Prod.snd) :
    alookup (Connection.dispose w).sessHeap h = alookup w.sessHeap h := by
  rw [Connection.dispose, Connection.onClose]
  rw [show alookup (connTeardown (closeCallbackStage
        { w with conn := { w.conn with connected := false } })).sessHeap h =
      alookup (closeCallbackStage
        { w with conn := { w.conn with connected := false } }).sessHeap h
    from connTeardown_heap_not_mem (by rw [closeCallbackStage_sessions]; exact hmem)]
  rw [closeCallbackStage_sessHeap]

theorem dispose_closed_mem {w : World} {p : Option String × Nat} {s : SessState}
    (hnd : (w.conn.sessions.map Prod.snd).Nodup) (hp : p ∈ w.conn.sessions)
    (hs : alookup w.sessHeap p.2 = some s) :
    alookup (Connection.dispose w).sessHeap p.2 = some (closedSess s) := by
  rw [Connection.dispose, Connection.onClose]
  apply connTeardown_closed_mem
  · rw [closeCallbackStage_sessions]
    exact hnd
  · rw [closeCallbackStage_sessions]
    exact hp
  · rw [closeCallbackStage_sessHeap]
    exact hs

/-! ### Concrete fixtures -/

/-- A `params` object with none of the inspected fields. -/
def emptyParams : MsgParams := ⟨none, none⟩

/-- A response frame `{"id": i, "result": v}`. -/
def respMsg (i : Nat) (v : JVal) : Msg :=
  ⟨some i, none, emptyParams, some v, none, none⟩

/-- A connected connection with one outstanding `send("Foo.bar")`:
request id 1, future handle 0. -/
def wFooPending : World := run initWorld [.setConnected, .connSend "Foo.bar"]

/-- A connection that queued `send("Foo.bar")` before the transport
reported connected. -/
def wFooQueued : World := run initWorld [.connSend "Foo.bar"]

/-- A connected connection with a registered close callback. -/
def wWithCallback : World := run initWorld [.setConnected, .setClosedCallback]

/-! ### C9 — disposal idempotence -/

/-- C9 counterexample: disposing a second time is observable — the close
callback is indeed invoked only once, but the `Disconnected` notification is
emitted again by the second `dispose` (`_on_close` emits unconditionally). -/
theorem dispose_idempotent_cex :
    (Connection.dispose (Connection.dispose wWithCallback)).conn.events.count
        Event.disconnected = 2 ∧
    (Connection.dispose wWithCallback).conn.events.count Event.disconnected = 1 ∧
    (Connection.dispose (Connection.dispose wWithCallback)).conn.closeCallbackCalls
        = 1 := by
  decide

/-- Disposing an already-torn-down connection only re-emits `Disconnected`. -/
theorem dispose_already (a : World) (h1 : a.conn.connected = false)
    (h2 : a.conn.callbacks = []) (h3 : a.conn.sessions = [])
    (h4 : a.conn.closeCallbackSet = false) :
    Connection.dispose a =
      { a with conn := { a.conn with
          events := a.conn.events ++ [Event.disconnected] } } := by
  obtain ⟨⟨lastId, cbs, cn, ss, cset, calls, evs⟩, heap, nH, fut, nF, ob⟩ := a
  simp only at h1 h2 h3 h4
  subst h1; subst h2; subst h3; subst h4
  simp [Connection.dispose, Connection.onClose, closeCallbackStage,
    connTeardown, settleAllTC, closeSessions]

/-- C9 amended: a second `dispose` invokes no close callback, rejects no
request, touches no session and no future — its only observable effect is
emitting the `Disconnected` notification once more. -/
theorem dispose_second_reemits_only (w : World) :
    Connection.dispose (Connection.dispose w) =
      { Connection.dispose w with conn := { (Connection.dispose w).conn with
          events := (Connection.dispose w).conn.events ++ [Event.disconnected] } } :=
  dispose_already (Connection.dispose w) (dispose_connected w)
    (dispose_callbacks w) (dispose_sessions w) (dispose_set w)

/-! ### C8 — transport write failure -/

/-- C8 counterexample: when the write of request 1 fails with
`ConnectionClosed`, the caller's future (handle 0) is *resolved with `None`*
(`callback.set_result(None)`), not rejected; disposal does follow. -/
theorem asyncSendFail_rejection_cex :
    alookup (Connection.asyncSendFail wFooPending 1).futures 0 =
      some ⟨"Foo.bar", .resolved none⟩ ∧
    (Connection.asyncSendFail wFooPending 1).conn.connected = false := by
  decide

/-- C8 amended: a write failure due to the transport being closed settles the
specific pending request by resolving it with a null result (not a
rejection), and disposal of the whole connection follows. -/
theorem asyncSendFail_resolves_null (w : World) (i fh : Nat) (m : String)
    (h1 : alookup w.conn.callbacks i = some fh)
    (h2 : alookup w.futures fh = some ⟨m, .pending⟩) :
    Connection.asyncSendFail w i =
      Connection.dispose (setFutureState w fh (fun _ => .resolved none)) ∧
    alookup (Connection.asyncSendFail w i).futures fh =
      some ⟨m, .resolved none⟩ ∧
    (Connection.asyncSendFail w i).conn.connected = false := by
  have heq : Connection.asyncSendFail w i =
      Connection.dispose (setFutureState w fh (fun _ => .resolved none)) := by
    simp [Connection.asyncSendFail, h1, h2]
  refine ⟨heq, ?_, ?_⟩
  · rw [heq]
    refine dispose_preserved ?_ (by simp)
    rw [alookup_setFutureState, h2]
    simp
  · rw [heq, dispose_connected]

/-- C8 witness: the amended theorem applied to the concrete world. -/
theorem asyncSendFail_resolves_null_witness :
    alookup wFooPending.conn.callbacks 1 = some 0 ∧
    alookup wFooPending.futures 0 = some ⟨"Foo.bar", .pending⟩ ∧
    (Connection.asyncSendFail wFooPending 1).conn.connected = false :=
  ⟨by decide, by decide,
   (asyncSendFail_resolves_null wFooPending 1 0 "Foo.bar"
      (by decide) (by decide)).2.2⟩

/-! ### C7 — dispatch-loop exception handling -/

/-- C7 counterexample: a malformed frame is caught (not re-raised) but breaks
`_recv_loop`, so the well-formed response that follows it is never
demultiplexed: the pending request ends rejected by disposal instead of
resolved with the response's result, which it does receive when the
malformed frame is absent. -/
theorem recvLoop_malformed_drops_rest_cex :
    alookup (recvLoop wFooQueued
        [.malformed, .frame (respMsg 1 (.num 2))]).futures 0 =
      some ⟨"Foo.bar", .rejected (targetClosedMsg "Foo.bar")⟩ ∧
    alookup (recvLoop wFooQueued [.frame (respMsg 1 (.num 2))]).futures 0 =
      some ⟨"Foo.bar", .resolved (some (.num 2))⟩ := by
  decide

/-- C7 amended: an exception while handling one inbound message is caught
inside the receive loop (never propagated out of it), but it terminates the
loop: all subsequent frames are ignored and the connection is disposed. -/
theorem recvLoop_exception_breaks_loop (w : World) (rest : List Frame)
    (hc : w.conn.connected = true) :
    recvLoopGo w (.malformed :: rest) = Connection.dispose w := by
  simp [recvLoopGo, hc]

/-- C7 witness. -/
theorem recvLoop_exception_breaks_loop_witness :
    (setConnected initWorld).conn.connected = true ∧
    recvLoopGo (setConnected initWorld) [.malformed] =
      Connection.dispose (setConnected initWorld) :=
  ⟨rfl, recvLoop_exception_breaks_loop (setConnected initWorld) [] rfl⟩

/-! ### Session dispatch lemmas -/

theorem alookup_mem {α β : Type} [DecidableEq α] {l : List (α × β)} {k : α}
    {v : β} (h : alookup l k = some v) : (k, v) ∈ l := by
  induction l with
  | nil => simp [alookup] at h
  | cons p rest ih =>
    obtain ⟨pk, pv⟩ := p
    simp only [alookup] at h
    split at h
    · next he =>
      rw [Option.some_inj] at h
      rw [← he, ← h]
      exact List.mem_cons_self _ _
    · exact List.mem_cons_of_mem _ (ih h)

theorem sessOnMessage_conn (s : SessState) (w : World) (msg : Msg) :
    (CDPSession.onMessage s w msg).2.conn = w.conn := by
  rcases msg with ⟨mid, mm, mp, mr, me, msid⟩
  rcases mid with _ | i
  · rfl
  · dsimp only [CDPSession.onMessage]
    by_cases hi : i = 0
    · simp [hi]
    · simp only [hi, if_false]
      cases alookup s.callbacks i with
      | none => rfl
      | some fh => cases me <;> rfl

theorem sessOnMessage_sessHeap (s : SessState) (w : World) (msg : Msg) :
    (CDPSession.onMessage s w msg).2.sessHeap = w.sessHeap := by
  rcases msg with ⟨mid, mm, mp, mr, me, msid⟩
  rcases mid with _ | i
  · rfl
  · dsimp only [CDPSession.onMessage]
    by_cases hi : i = 0
    · simp [hi]
    · simp only [hi, if_false]
      cases alookup s.callbacks i with
      | none => rfl
      | some fh => cases me <;> rfl

theorem sessOnMessage_futures_not_mem {s : SessState} {w : World} {msg : Msg}
    {fh : Nat} (hmem : fh ∉ s.callbacks.map Prod.snd) :
    alookup (CDPSession.onMessage s w msg).2.futures fh =
      alookup w.futures fh := by
  rcases msg with ⟨mid, mm, mp, mr, me, msid⟩
  rcases mid with _ | i
  · rfl
  · dsimp only [CDPSession.onMessage]
    by_cases hi : i = 0
    · simp [hi]
    · simp only [hi, if_false]
      cases hcb : alookup s.callbacks i with
      | none => rfl
      | some fh' =>
        have hne : ¬ fh = fh' := by
          intro he
          apply hmem
          rw [he]
          exact List.mem_map_of_mem Prod.snd (alookup_mem hcb)
        cases me with
        | none =>
          dsimp only
          rw [alookup_setFutureState]
          cases alookup w.futures fh <;> simp [hne]
        | some e =>
          dsimp only
          rw [alookup_setFutureState]
          cases alookup w.futures fh <;> simp [hne]

/-! ### C2 — sessionId routing -/

/-- C2 counterexample: a response that carries the top-level session id `""`
is *not* routed to a session — the truthiness test `if msg.get('sessionId'):`
fails on the empty string — and it resolves the pending request in the
Connection's own callback table. -/
theorem sessionId_routing_cex :
    (Connection.onMessage wFooPending
        ⟨some 1, none, emptyParams, some (.num 2), none, some ""⟩).map
      (fun w' => alookup w'.futures 0) =
    some (some ⟨"Foo.bar", .resolved (some (.num 2))⟩) := by
  decide

/-- C2 amended: a response bearing a *non-empty* top-level `sessionId` is
routed only to the Session registered under that id: the Connection's own
state (callback table, emitter, registry) is untouched, every other heap
session is untouched, futures not registered in the target Session's table
are untouched, and when no session is registered under the id the whole
state is unchanged. -/
theorem sessionId_routing_exclusive (w : World) (msg : Msg) (sid : String)
    (hs : msg.sessionId = some sid) (hne : ¬ sid = "")
    (hm1 : ¬ msg.method = some "Target.attachedToTarget")
    (hm2 : ¬ msg.method = some "Target.detachedFromTarget") :
    ∃ w', Connection.onMessage w msg = some w' ∧
      w'.conn = w.conn ∧
      (∀ g : Nat, ¬ alookup w.conn.sessions (some sid) = some g →
        alookup w'.sessHeap g = alookup w.sessHeap g) ∧
      (alookup w.conn.sessions (some sid) = none → w' = w) ∧
      (∀ h s, alookup w.conn.sessions (some sid) = some h →
        alookup w.sessHeap h = some s →
        w' = { (CDPSession.onMessage s w msg).2 with
               sessHeap := aset w.sessHeap h (CDPSession.onMessage s w msg).1 }) ∧
      (∀ fh : Nat,
        (∀ h s, alookup w.conn.sessions (some sid) = some h →
          alookup w.sessHeap h = some s → fh ∉ s.callbacks.map Prod.snd) →
        alookup w'.futures fh = alookup w.futures fh) := by
  have hne1 : ¬ (msg.method.getD "") = "Target.attachedToTarget" := by
    cases hm : msg.method with
    | none => simp
    | some m =>
      simp only [Option.getD]
      intro he
      exact hm1 (by rw [hm, he])
  have hne2 : ¬ (msg.method.getD "") = "Target.detachedFromTarget" := by
    cases hm : msg.method with
    | none => simp
    | some m =>
      simp only [Option.getD]
      intro he
      exact hm2 (by rw [hm, he])
  have hpre : Connection.onMessage w msg = some (routePhase w msg) := by
    rw [Connection.onMessage]
    simp only [hne1, hne2, if_false]
  rw [hpre, routePhase, hs]
  simp only [hne, if_false]
  cases hlook : alookup w.conn.sessions (some sid) with
  | none =>
    exact ⟨w, rfl, rfl, fun g _ => rfl, fun _ => rfl,
      fun h' s' hl' => Option.noConfusion hl', fun fh _ => rfl⟩
  | some h =>
    cases hheap : alookup w.sessHeap h with
    | none =>
      refine ⟨w, ?_, rfl, fun g _ => rfl, fun hn => Option.noConfusion hn,
        ?_, fun fh _ => rfl⟩
      · show some (heapApply w h (fun s w => CDPSession.onMessage s w msg))
          = some w
        rw [heapApply_none _ hheap]
      · intro h' s' hl' hh'
        rw [Option.some_inj] at hl'
        subst hl'
        rw [hheap] at hh'
        exact Option.noConfusion hh'
    | some s =>
      refine ⟨heapApply w h (fun s w => CDPSession.onMessage s w msg),
        rfl, ?_, ?_, fun hn => Option.noConfusion hn, ?_, ?_⟩
      · rw [heapApply, hheap]
        exact sessOnMessage_conn s w msg
      · intro g hg
        rw [heapApply, hheap]
        show alookup (aset (CDPSession.onMessage s w msg).2.sessHeap h
          (CDPSession.onMessage s w msg).1) g = _
        rw [sessOnMessage_sessHeap]
        refine alookup_aset_ne _ _ ?_
        intro he
        exact hg (by rw [he])
      · intro h' s' hl' hh'
        rw [Option.some_inj] at hl'
        subst hl'
        rw [hheap, Option.some_inj] at hh'
        subst hh'
        rw [heapApply, hheap]
        dsimp only
        rw [sessOnMessage_sessHeap]
      · intro fh hfh
        rw [heapApply, hheap]
        show alookup (CDPSession.onMessage s w msg).2.futures fh = _
        exact sessOnMessage_futures_not_mem (hfh h s rfl hheap)

/-- The state used in the C2 witness: a connected connection with session
"S" attached and one pending request of its own. -/
def wWithSessionS : World := run initWorld
  [.setConnected,
   .inbound ⟨none, some "Target.attachedToTarget", ⟨some "S", some "page"⟩,
     none, none, none⟩,
   .connSend "Foo.bar"]

/-- C2 witness: the amended theorem applied at a concrete state. -/
theorem sessionId_routing_exclusive_witness :
    ∃ w', Connection.onMessage wWithSessionS
        ⟨some 1, none, emptyParams, some (.num 7), none, some "S"⟩ = some w' ∧
      w'.conn = wWithSessionS.conn := by
  rcases sessionId_routing_exclusive wWithSessionS
      ⟨some 1, none, emptyParams, some (.num 7), none, some "S"⟩ "S"
      rfl (by decide) (by decide) (by decide) with ⟨w', hw', hconn, _⟩
  exact ⟨w', hw', hconn⟩

/-! ### C4 — response round-trip -/

/-- C4: a response matching pending id `i` resolves the call with exactly the
carried result; an error response rejects it with the `_createProtocolError`
message, which is built from the issuing method and the remote message (and
so contains both as substrings), with the remote `data` appended when
present. -/
theorem onResponse_roundtrip (w : World) (msg : Msg) (i fh : Nat) (m : String)
    (hid : msg.id = some i)
    (hcb : alookup w.conn.callbacks i = some fh)
    (hfut : alookup w.futures fh = some ⟨m, .pending⟩) :
    (∀ r, msg.error = none → msg.result = some r →
       alookup (Connection.onResponse w msg).futures fh =
         some ⟨m, .resolved (some r)⟩) ∧
    (∀ e, msg.error = some e →
       alookup (Connection.onResponse w msg).futures fh =
         some ⟨m, .rejected (protocolErrorMsg m e)⟩ ∧
       (∃ a b, protocolErrorMsg m e = a ++ m ++ b) ∧
       (∃ c d, protocolErrorMsg m e = c ++ e.message ++ d) ∧
       (∀ dat, e.data = some dat →
          protocolErrorMsg m e =
            "Protocol error (" ++ m ++ "): " ++ e.message ++ " " ++ dat) ∧
       (e.data = none →
          protocolErrorMsg m e = "Protocol error (" ++ m ++ "): " ++ e.message)) := by
  constructor
  · intro r he hr
    rw [Connection.onResponse, hid]
    dsimp only
    rw [hcb]
    dsimp only
    rw [he]
    dsimp only
    rw [alookup_setFutureState]
    show (alookup w.futures fh).map _ = _
    rw [hfut, hr]
    simp
  · intro e he
    refine ⟨?_, ?_, ?_, ?_, ?_⟩
    · rw [Connection.onResponse, hid]
      dsimp only
      rw [hcb]
      dsimp only
      rw [he]
      dsimp only
      rw [alookup_setFutureState]
      show (alookup w.futures fh).map _ = _
      rw [hfut]
      simp
    · cases hd : e.data with
      | none =>
        exact ⟨"Protocol error (", "): " ++ e.message, by
          simp [protocolErrorMsg, hd, String.append_assoc]⟩
      | some dat =>
        exact ⟨"Protocol error (", "): " ++ e.message ++ " " ++ dat, by
          simp [protocolErrorMsg, hd, String.append_assoc]⟩
    · cases hd : e.data with
      | none =>
        exact ⟨"Protocol error (" ++ m ++ "): ", "", by
          simp [protocolErrorMsg, hd, String.append_empty]⟩
      | some dat =>
        exact ⟨"Protocol error (" ++ m ++ "): ", " " ++ dat, by
          simp [protocolErrorMsg, hd, String.append_assoc]⟩
    · intro dat hd
      simp [protocolErrorMsg, hd]
    · intro hd
      simp [protocolErrorMsg, hd]

/-- C4 witness: round-trip at a concrete state — a result response resolves
with that result, an error response rejects with a message containing both
the method and the remote message. -/
theorem onResponse_roundtrip_witness :
    alookup (Connection.onResponse wFooPending
        ⟨some 1, none, emptyParams, some (.num 2), none, none⟩).futures 0 =
      some ⟨"Foo.bar", .resolved (some (.num 2))⟩ ∧
    alookup (Connection.onResponse wFooPending
        ⟨some 1, none, emptyParams, none, some ⟨"boom", none⟩, none⟩).futures 0 =
      some ⟨"Foo.bar", .rejected (protocolErrorMsg "Foo.bar" ⟨"boom", none⟩)⟩ ∧
    protocolErrorMsg "Foo.bar" ⟨"boom", none⟩ = "Protocol error (Foo.bar): boom" :=
  ⟨(onResponse_roundtrip wFooPending
      ⟨some 1, none, emptyParams, some (.num 2), none, none⟩ 1 0 "Foo.bar"
      rfl (by decide) (by decide)).1 (.num 2) rfl rfl,
   ((onResponse_roundtrip wFooPending
      ⟨some 1, none, emptyParams, none, some ⟨"boom", none⟩, none⟩ 1 0 "Foo.bar"
      rfl (by decide) (by decide)).2 ⟨"boom", none⟩ rfl).1,
   by decide⟩

/-! ### Fallback-routing helper lemmas -/

theorem onMessage_no_route (w : World) (msg : Msg) (hm : msg.method = none)
    (hsid : msg.sessionId = none) :
    Connection.onMessage w msg = some (connFallback w msg) := by
  rw [Connection.onMessage, hm]
  dsimp only [Option.getD]
  rw [if_neg (by decide), if_neg (by decide), routePhase, hsid]

theorem connFallback_response (w : World) (msg : Msg) (i : Nat)
    (hid : msg.id = some i) (hcb : (alookup w.conn.callbacks i).isSome) :
    connFallback w msg = Connection.onResponse w msg := by
  rw [connFallback, hid]
  dsimp only
  rw [if_pos hcb]

theorem recvLoopGo_one (w : World) (m : Msg) (hc : w.conn.connected = true)
    (w' : World) (hmsg : Connection.onMessage w m = some w') :
    recvLoopGo w [.frame m] = w' := by
  simp [recvLoopGo, hc, hmsg]

/-! ### C3 — first send races the handshake, later sends fail fast -/

/-- C3: on a fresh connection (`_lastId == 0`) a `send` issued before the
transport reports connected does not fail: it allocates id 1, queues the
serialized request, registers a pending future, and that future resolves
with the response's result once the receive loop has marked the connection
connected and the matching response arrives. By contrast, once at least one
message has been sent (`_lastId` truthy), a `send` on a disconnected
connection raises `ConnectionError('Connection is closed')` without
enqueueing anything. -/
theorem send_first_queues_later_fails (w w2 : World) (m : String) (v : JVal)
    (h1 : w.conn.lastId = 0) (h2 : w.conn.connected = false)
    (h3 : w.conn.callbacks = []) (h4 : alookup w.futures w.nextF = none)
    (h5 : ¬ w2.conn.lastId = 0) (h6 : w2.conn.connected = false) :
    (∃ w1, Connection.send w m = .ok (1, w1) ∧
       w1.outbox = w.outbox ++ [⟨1, m, none⟩] ∧
       alookup w1.futures w.nextF = some ⟨m, .pending⟩ ∧
       w1.conn.connected = false ∧
       alookup (recvLoop w1 [.frame (respMsg 1 v)]).futures w.nextF =
         some ⟨m, .resolved (some v)⟩) ∧
    Connection.send w2 m = .error "Connection is closed" := by
  have hguard : ¬ (w.conn.lastId ≠ 0 ∧ ¬ w.conn.connected) :=
    fun hc => hc.1 h1
  constructor
  · refine ⟨⟨⟨1, w.conn.callbacks ++ [(1, w.nextF)], w.conn.connected,
        w.conn.sessions, w.conn.closeCallbackSet, w.conn.closeCallbackCalls,
        w.conn.events⟩, w.sessHeap, w.nextH,
        w.futures ++ [(w.nextF, ⟨m, .pending⟩)], w.nextF + 1,
        w.outbox ++ [⟨1, m, none⟩]⟩, ?_, rfl, ?_, h2, ?_⟩
    · rw [Connection.send, if_neg hguard]
      simp [Connection.rawSend, h1]
    · show alookup (w.futures ++ [(w.nextF, ⟨m, .pending⟩)]) w.nextF = _
      rw [alookup_append_right _ h4]
      simp [alookup]
    · have hcb1 : alookup (w.conn.callbacks ++ [(1, w.nextF)]) 1 =
          some w.nextF := by
        rw [h3]
        simp [alookup]
      have hfut1 : alookup (w.futures ++ [(w.nextF, (⟨m, .pending⟩ : Future))])
          w.nextF = some ⟨m, .pending⟩ := by
        rw [alookup_append_right _ h4]
        simp [alookup]
      rw [recvLoop]
      rw [recvLoopGo_one _ _ rfl _
        (onMessage_no_route _ (respMsg 1 v) rfl rfl)]
      rw [connFallback_response _ _ 1 rfl (by
        show (alookup (w.conn.callbacks ++ [(1, w.nextF)]) 1).isSome = true
        rw [hcb1]
        rfl)]
      exact ((onResponse_roundtrip _ (respMsg 1 v) 1 w.nextF m rfl hcb1 hfut1).1
        v rfl rfl)
  · rw [Connection.send, if_pos ⟨h5, by rw [h6]; simp⟩]

/-- The disconnected-after-send state used by the C3 witness. -/
def wDeadAfterSend : World :=
  run initWorld [.setConnected, .connSend "Foo.bar", .dispose]

/-- C3 witness: the theorem applied at concrete states — a fresh
disconnected connection, and a disposed connection that has already sent. -/
theorem send_first_queues_later_fails_witness :
    Connection.send wDeadAfterSend "Foo.bar" = .error "Connection is closed" ∧
    ∃ w1, Connection.send initWorld "Foo.bar" = .ok (1, w1) := by
  rcases send_first_queues_later_fails initWorld wDeadAfterSend "Foo.bar"
      (.num 2) rfl rfl rfl rfl (by decide) (by decide) with ⟨⟨w1, hok, _⟩, herr⟩
  exact ⟨herr, w1, hok⟩

/-! ### C1 — disposal cascade -/

/-- An `Target.attachedToTarget` notification frame for session `S`. -/
def attachMsg (S t : String) : Msg :=
  ⟨none, some "Target.attachedToTarget", ⟨some S, some t⟩, none, none, none⟩

/-- A `Target.detachedFromTarget` notification frame for session `S`. -/
def detachMsg (S : String) : Msg :=
  ⟨none, some "Target.detachedFromTarget", ⟨some S, none⟩, none, none, none⟩

/-- Session "S" attached, a nested child "S2" created on it via
`_createSession` (heap handle 1), and one pending request sent on the child;
then the Connection is disposed. -/
def wNestedChild : World := run initWorld
  [.setConnected, .inbound (attachMsg "S" "page"),
   .createChild 0 "worker" "S2", .sessSend 1 "Foo.bar", .dispose]

/-- C1 counterexample: disposing the Connection does *not* reject the pending
request of a nested child session (created by `CDPSession._createSession`,
held only in its parent Session's `_sessions` dict, not in the Connection's
registry), and emits no disconnect notification for it: after `dispose` the
child's request is still pending in its table and its future unsettled. -/
theorem dispose_nested_child_cex :
    alookup wNestedChild.futures 0 = some ⟨"Foo.bar", .pending⟩ ∧
    (alookup wNestedChild.sessHeap 1).map
        (fun s => s.events.count Event.disconnected) = some 0 ∧
    (alookup wNestedChild.sessHeap 1).map (fun s => s.callbacks) =
      some [(1, 0)] := by
  decide

/-- C1 amended: disposing the Connection rejects — with a target-closed error
carrying the original method name — every pending request in the
Connection's table and in the table of every Session present in the
Connection's registry, closes each registry Session exactly once (one more
`Disconnected` event each) and emits exactly one `Disconnected` on the
Connection; heap sessions not in the registry (such as `_createSession`
children) are untouched. -/
theorem dispose_closes_connection_and_registry (w : World)
    (hnd : (w.conn.sessions.map Prod.snd).Nodup) :
    (∀ p, p ∈ w.conn.callbacks → ∀ m,
       alookup w.futures p.2 = some ⟨m, .pending⟩ →
       alookup (Connection.dispose w).futures p.2 =
         some ⟨m, .rejected (targetClosedMsg m)⟩) ∧
    (∀ q, q ∈ w.conn.sessions → ∀ s, alookup w.sessHeap q.2 = some s →
       (∀ p, p ∈ s.callbacks → ∀ m,
          alookup w.futures p.2 = some ⟨m, .pending⟩ →
          alookup (Connection.dispose w).futures p.2 =
            some ⟨m, .rejected (targetClosedMsg m)⟩) ∧
       alookup (Connection.dispose w).sessHeap q.2 = some (closedSess s) ∧
       (closedSess s).events.count Event.disconnected =
         s.events.count Event.disconnected + 1) ∧
    (Connection.dispose w).conn.events.count Event.disconnected =
      w.conn.events.count Event.disconnected + 1 ∧
    (∀ g, g ∉ w.conn.sessions.map Prod.snd →
       alookup (Connection.dispose w).sessHeap g = alookup w.sessHeap g) ∧
    (∀ m : String, ∃ a b, targetClosedMsg m = a ++ m ++ b) := by
  refine ⟨?_, ?_, ?_, ?_, ?_⟩
  · intro p hp m hfut
    exact dispose_conn_pending (List.mem_map_of_mem Prod.snd hp) hfut
  · intro q hq s hs
    refine ⟨?_, dispose_closed_mem hnd hq hs, ?_⟩
    · intro p hp m hfut
      exact dispose_sess_rejects hnd hq hs (List.mem_map_of_mem Prod.snd hp) hfut
    · simp [closedSess]
  · rw [dispose_events]
    simp
  · intro g hg
    exact dispose_heap_not_mem hg
  · intro m
    exact ⟨"Protocol error ", ": Target closed.", rfl⟩

/-- Session "S" attached with one pending request of its own plus one pending
request on the Connection. -/
def wConnAndSession : World := run initWorld
  [.setConnected, .inbound (attachMsg "S" "page"),
   .connSend "Conn.method", .sessSend 0 "Sess.method"]

/-- C1 witness: the amended theorem applied at a concrete state. -/
theorem dispose_closes_connection_and_registry_witness :
    alookup (Connection.dispose wConnAndSession).futures 0 =
      some ⟨"Conn.method", .rejected (targetClosedMsg "Conn.method")⟩ ∧
    alookup (Connection.dispose wConnAndSession).futures 1 =
      some ⟨"Sess.method", .rejected (targetClosedMsg "Sess.method")⟩ ∧
    (Connection.dispose wConnAndSession).conn.events.count Event.disconnected =
      wConnAndSession.conn.events.count Event.disconnected + 1 := by
  have h := dispose_closes_connection_and_registry wConnAndSession (by decide)
  refine ⟨h.1 (1, 0) (by decide) "Conn.method" (by decide), ?_, h.2.2.1⟩
  exact (h.2.1 (some "S", 0) (by decide)
      ⟨0, [(2, 1)], true, "page", some "S", [], []⟩ (by decide)).1
    (2, 1) (by decide) "Sess.method" (by decide)

/-! ### More association-list lemmas -/

theorem alookup_not_mem {α β : Type} [DecidableEq α] {l : List (α × β)}
    {k : α} (h : k ∉ l.map Prod.fst) : alookup l k = none := by
  induction l with
  | nil => rfl
  | cons p rest ih =>
    simp only [List.map_cons, List.mem_cons] at h
    push_neg at h
    simp only [alookup]
    rw [if_neg (fun he => h.1 he.symm)]
    exact ih h.2

theorem alookup_decomp {α β : Type} [DecidableEq α] {l : List (α × β)}
    {k : α} {v : β} (hnd : (l.map Prod.fst).Nodup) (hl : alookup l k = some v) :
    ∃ l1 l2, l = l1 ++ (k, v) :: l2 ∧ k ∉ l1.map Prod.fst ∧
      k ∉ l2.map Prod.fst := by
  induction l with
  | nil => simp [alookup] at hl
  | cons p rest ih =>
    rw [List.map_cons, List.nodup_cons] at hnd
    obtain ⟨pk, pv⟩ := p
    simp only [alookup] at hl
    split at hl
    · next he =>
      rw [Option.some_inj] at hl
      refine ⟨[], rest, ?_, by simp, ?_⟩
      · rw [← he, ← hl]
        rfl
      · rw [← he]
        exact hnd.1
    · next he =>
      rcases ih hnd.2 hl with ⟨l1, l2, hdec, h1, h2⟩
      refine ⟨(pk, pv) :: l1, l2, by rw [hdec]; rfl, ?_, h2⟩
      simp only [List.map_cons, List.mem_cons]
      push_neg
      exact ⟨fun hk => he hk.symm, h1⟩

theorem map_set_no_key {α β : Type} [DecidableEq α] {l : List (α × β)}
    {k : α} (v : β) (h : k ∉ l.map Prod.fst) :
    l.map (fun kv => if kv.1 = k then (k, v) else kv) = l := by
  induction l with
  | nil => rfl
  | cons p rest ih =>
    simp only [List.map_cons, List.mem_cons] at h
    push_neg at h
    rw [List.map_cons, if_neg (fun he => h.1 he.symm), ih h.2]

theorem aset_decomp {α β : Type} [DecidableEq α] {l l1 l2 : List (α × β)}
    {k : α} {v : β} (v' : β) (hdec : l = l1 ++ (k, v) :: l2)
    (h1 : k ∉ l1.map Prod.fst) (h2 : k ∉ l2.map Prod.fst) :
    aset l k v' = l1 ++ (k, v') :: l2 := by
  subst hdec
  have hsome : (alookup (l1 ++ (k, v) :: l2) k).isSome := by
    rw [alookup_append_right _ (alookup_not_mem h1)]
    simp [alookup]
  rw [aset, if_pos hsome, List.map_append, List.map_cons, if_pos rfl,
    map_set_no_key v' h1, map_set_no_key v' h2]

theorem aset_keys_present {α β : Type} [DecidableEq α] {l : List (α × β)}
    {k : α} (v : β) (h : (alookup l k).isSome) :
    (aset l k v).map Prod.fst = l.map Prod.fst := by
  rw [aset, if_pos h, List.map_map]
  refine List.map_congr_left ?_
  intro kv _
  by_cases hk : kv.1 = k
  · simp [hk]
  · simp [hk]

theorem alookup_filterKey_self {α β : Type} [DecidableEq α] [BEq α]
    [LawfulBEq α] (l : List (α × β)) (k : α) :
    alookup (l.filter (fun p => p.1 != k)) k = none := by
  apply alookup_not_mem
  intro hmem
  rcases List.mem_map.mp hmem with ⟨p, hp, hpk⟩
  rcases List.mem_filter.mp hp with ⟨_, hne⟩
  rw [hpk] at hne
  simp [bne_iff_ne] at hne

theorem alookup_filterKey_ne {α β : Type} [DecidableEq α] [BEq α]
    [LawfulBEq α] (l : List (α × β)) {k j : α} (h : ¬ j = k) :
    alookup (l.filter (fun p => p.1 != k)) j = alookup l j := by
  induction l with
  | nil => rfl
  | cons p rest ih =>
    by_cases hp : p.1 = k
    · rw [List.filter_cons_of_neg (by simp [bne_iff_ne, hp]), ih, alookup,
        if_neg (by intro he; exact h (by rw [← he]; exact hp))]
    · rw [List.filter_cons_of_pos (by simp [bne_iff_ne, hp]), alookup, alookup]
      split
      · rfl
      · exact ih

/-! ### Projection lemmas for invariant preservation -/

theorem settleAllTC_nextH (fhs : List Nat) (w : World) :
    (settleAllTC w fhs).nextH = w.nextH := by
  induction fhs generalizing w with
  | nil => rfl
  | cons f rest ih => rw [settleAllTC_cons, ih]; rfl

theorem sessOnMessage_nextH (s : SessState) (w : World) (msg : Msg) :
    (CDPSession.onMessage s w msg).2.nextH = w.nextH := by
  rcases msg with ⟨mid, mm, mp, mr, me, msid⟩
  rcases mid with _ | i
  · rfl
  · dsimp only [CDPSession.onMessage]
    by_cases hi : i = 0
    · simp [hi]
    · simp only [hi, if_false]
      cases alookup s.callbacks i with
      | none => rfl
      | some fh => cases me <;> rfl

theorem sessOnMessage_callbacks_sublist (s : SessState) (w : World) (msg : Msg) :
    (CDPSession.onMessage s w msg).1.callbacks.Sublist s.callbacks := by
  rcases msg with ⟨mid, mm, mp, mr, me, msid⟩
  rcases mid with _ | i
  · exact List.Sublist.refl _
  · dsimp only [CDPSession.onMessage]
    by_cases hi : i = 0
    · simp [hi]
    · simp only [hi, if_false]
      cases alookup s.callbacks i with
      | none => exact List.Sublist.refl _
      | some fh => cases me <;> exact List.filter_sublist _

theorem sessOnMessage_lastId (s : SessState) (w : World) (msg : Msg) :
    (CDPSession.onMessage s w msg).1.lastId = s.lastId := by
  rcases msg with ⟨mid, mm, mp, mr, me, msid⟩
  rcases mid with _ | i
  · rfl
  · dsimp only [CDPSession.onMessage]
    by_cases hi : i = 0
    · simp [hi]
    · simp only [hi, if_false]
      cases alookup s.callbacks i with
      | none => rfl
      | some fh => cases me <;> rfl

theorem sessOnMessage_hasConn (s : SessState) (w : World) (msg : Msg) :
    (CDPSession.onMessage s w msg).1.hasConn = s.hasConn := by
  rcases msg with ⟨mid, mm, mp, mr, me, msid⟩
  rcases mid with _ | i
  · rfl
  · dsimp only [CDPSession.onMessage]
    by_cases hi : i = 0
    · simp [hi]
    · simp only [hi, if_false]
      cases alookup s.callbacks i with
      | none => rfl
      | some fh => cases me <;> rfl

theorem sessOnMessage_targetType (s : SessState) (w : World) (msg : Msg) :
    (CDPSession.onMessage s w msg).1.targetType = s.targetType := by
  rcases msg with ⟨mid, mm, mp, mr, me, msid⟩
  rcases mid with _ | i
  · rfl
  · dsimp only [CDPSession.onMessage]
    by_cases hi : i = 0
    · simp [hi]
    · simp only [hi, if_false]
      cases alookup s.callbacks i with
      | none => rfl
      | some fh => cases me <;> rfl

theorem onResponse_conn_sessions (w : World) (msg : Msg) :
    (Connection.onResponse w msg).conn.sessions = w.conn.sessions := by
  rw [Connection.onResponse]
  rcases msg.id with _ | i
  · rfl
  · dsimp only
    cases alookup w.conn.callbacks i with
    | none => rfl
    | some fh => cases msg.error <;> rfl

theorem onResponse_sessHeap (w : World) (msg : Msg) :
    (Connection.onResponse w msg).sessHeap = w.sessHeap := by
  rw [Connection.onResponse]
  rcases msg.id with _ | i
  · rfl
  · dsimp only
    cases alookup w.conn.callbacks i with
    | none => rfl
    | some fh => cases msg.error <;> rfl

theorem onResponse_nextH (w : World) (msg : Msg) :
    (Connection.onResponse w msg).nextH = w.nextH := by
  rw [Connection.onResponse]
  rcases msg.id with _ | i
  · rfl
  · dsimp only
    cases alookup w.conn.callbacks i with
    | none => rfl
    | some fh => cases msg.error <;> rfl

theorem onResponse_lastId (w : World) (msg : Msg) :
    (Connection.onResponse w msg).conn.lastId = w.conn.lastId := by
  rw [Connection.onResponse]
  rcases msg.id with _ | i
  · rfl
  · dsimp only
    cases alookup w.conn.callbacks i with
    | none => rfl
    | some fh => cases msg.error <;> rfl

theorem onResponse_connected (w : World) (msg : Msg) :
    (Connection.onResponse w msg).conn.connected = w.conn.connected := by
  rw [Connection.onResponse]
  rcases msg.id with _ | i
  · rfl
  · dsimp only
    cases alookup w.conn.callbacks i with
    | none => rfl
    | some fh => cases msg.error <;> rfl

theorem onResponse_callbacks_sublist (w : World) (msg : Msg) :
    (Connection.onResponse w msg).conn.callbacks.Sublist w.conn.callbacks := by
  rw [Connection.onResponse]
  rcases msg.id with _ | i
  · exact List.Sublist.refl _
  · dsimp only
    cases alookup w.conn.callbacks i with
    | none => exact List.Sublist.refl _
    | some fh => cases msg.error <;> exact List.filter_sublist _

theorem connFallback_conn_sessions (w : World) (msg : Msg) :
    (connFallback w msg).conn.sessions = w.conn.sessions := by
  rw [connFallback]
  rcases msg.id with _ | i
  · rfl
  · dsimp only
    split
    · exact onResponse_conn_sessions w msg
    · rfl

theorem connFallback_sessHeap (w : World) (msg : Msg) :
    (connFallback w msg).sessHeap = w.sessHeap := by
  rw [connFallback]
  rcases msg.id with _ | i
  · rfl
  · dsimp only
    split
    · exact onResponse_sessHeap w msg
    · rfl

theorem connFallback_nextH (w : World) (msg : Msg) :
    (connFallback w msg).nextH = w.nextH := by
  rw [connFallback]
  rcases msg.id with _ | i
  · rfl
  · dsimp only
    split
    · exact onResponse_nextH w msg
    · rfl

theorem connFallback_lastId (w : World) (msg : Msg) :
    (connFallback w msg).conn.lastId = w.conn.lastId := by
  rw [connFallback]
  rcases msg.id with _ | i
  · rfl
  · dsimp only
    split
    · exact onResponse_lastId w msg
    · rfl

theorem connFallback_connected (w : World) (msg : Msg) :
    (connFallback w msg).conn.connected = w.conn.connected := by
  rw [connFallback]
  rcases msg.id with _ | i
  · rfl
  · dsimp only
    split
    · exact onResponse_connected w msg
    · rfl

theorem connFallback_callbacks_sublist (w : World) (msg : Msg) :
    (connFallback w msg).conn.callbacks.Sublist w.conn.callbacks := by
  rw [connFallback]
  rcases msg.id with _ | i
  · exact List.Sublist.refl _
  · dsimp only
    split
    · exact onResponse_callbacks_sublist w msg
    · exact List.Sublist.refl _

/-! ### Reachable-state invariant -/

theorem alookup_isSome_of_mem {α β : Type} [DecidableEq α] {l : List (α × β)}
    {k : α} (h : k ∈ l.map Prod.fst) : (alookup l k).isSome := by
  induction l with
  | nil => cases h
  | cons q rest ih =>
    simp only [List.map_cons, List.mem_cons] at h
    simp only [alookup]
    by_cases hq : q.1 = k
    · rw [if_pos hq]
      rfl
    · rw [if_neg hq]
      rcases h with he | hr
      · exact absurd he.symm hq
      · exact ih hr

theorem alookup_none_iff {α β : Type} [DecidableEq α] {l : List (α × β)}
    {k : α} : alookup l k = none ↔ k ∉ l.map Prod.fst := by
  constructor
  · intro hn hmem
    have := alookup_isSome_of_mem hmem
    rw [hn] at this
    cases this
  · exact alookup_not_mem

/-- The structural well-formedness of every reachable state: distinct heap
handles below the allocation counter, a registry with distinct keys and
distinct live session objects, request ids bounded by the id counter and
globally distinct across all callback tables, and session-local id counters
never advanced past their initial 0. -/
structure WfWorld (w : World) : Prop where
  heapKeysNodup : (w.sessHeap.map Prod.fst).Nodup
  heapKeysLt : ∀ k ∈ w.sessHeap.map Prod.fst, k < w.nextH
  regKeysNodup : (w.conn.sessions.map Prod.fst).Nodup
  regHandlesNodup : (w.conn.sessions.map Prod.snd).Nodup
  regHandlesLt : ∀ v ∈ w.conn.sessions.map Prod.snd, v < w.nextH
  idBound : ∀ i ∈ w.tableIds, i ≤ w.conn.lastId
  idNodup : w.tableIds.Nodup
  sessLastId : ∀ p ∈ w.sessHeap, p.2.lastId = 0

theorem wf_initWorld : WfWorld initWorld := by
  refine ⟨?_, ?_, ?_, ?_, ?_, ?_, ?_, ?_⟩ <;>
    simp [initWorld, World.tableIds]

theorem wf_setConnected {w : World} (hw : WfWorld w) :
    WfWorld (setConnected w) :=
  ⟨hw.heapKeysNodup, hw.heapKeysLt, hw.regKeysNodup, hw.regHandlesNodup,
   hw.regHandlesLt, hw.idBound, hw.idNodup, hw.sessLastId⟩

theorem wf_setClosedCallback {w : World} (hw : WfWorld w) :
    WfWorld (Connection.setClosedCallback w) :=
  ⟨hw.heapKeysNodup, hw.heapKeysLt, hw.regKeysNodup, hw.regHandlesNodup,
   hw.regHandlesLt, hw.idBound, hw.idNodup, hw.sessLastId⟩

theorem wf_setFutureState {w : World} (hw : WfWorld w) (fh : Nat)
    (f : Future → CbState) : WfWorld (setFutureState w fh f) :=
  ⟨hw.heapKeysNodup, hw.heapKeysLt, hw.regKeysNodup, hw.regHandlesNodup,
   hw.regHandlesLt, hw.idBound, hw.idNodup, hw.sessLastId⟩

theorem wf_connSend_aux (w : World) (m : String) (hw : WfWorld w) :
    WfWorld { w with
      conn := ⟨w.conn.lastId + 1,
        w.conn.callbacks ++ [(w.conn.lastId + 1, w.nextF)], w.conn.connected,
        w.conn.sessions, w.conn.closeCallbackSet, w.conn.closeCallbackCalls,
        w.conn.events⟩,
      outbox := w.outbox ++ [⟨w.conn.lastId + 1, m, none⟩],
      futures := w.futures ++ [(w.nextF, ⟨m, .pending⟩)],
      nextF := w.nextF + 1 } := by
  have hnew : w.conn.lastId + 1 ∉ w.tableIds := by
    intro hmem
    have := hw.idBound _ hmem
    omega
  refine ⟨hw.heapKeysNodup, hw.heapKeysLt, hw.regKeysNodup,
    hw.regHandlesNodup, hw.regHandlesLt, ?_, ?_, hw.sessLastId⟩
  · intro j hj
    rw [World.tableIds] at hj
    simp only [List.map_append, List.map_cons, List.map_nil] at hj
    rcases List.mem_append.mp hj with hj1 | hj2
    · rcases List.mem_append.mp hj1 with hj1a | hj1b
      · have hm : j ∈ w.tableIds := by
          rw [World.tableIds]
          exact List.mem_append_left _ hj1a
        have := hw.idBound _ hm
        show j ≤ w.conn.lastId + 1
        omega
      · rcases List.mem_singleton.mp hj1b with he
        show j ≤ w.conn.lastId + 1
        omega
    · have hm : j ∈ w.tableIds := by
        rw [World.tableIds]
        exact List.mem_append_right _ hj2
      have := hw.idBound _ hm
      show j ≤ w.conn.lastId + 1
      omega
  · rw [World.tableIds]
    simp only [List.map_append, List.map_cons, List.map_nil]
    rw [List.append_assoc, List.singleton_append, List.nodup_middle,
      List.nodup_cons]
    constructor
    · intro hmem
      apply hnew
      rw [World.tableIds]
      exact hmem
    · have := hw.idNodup
      rw [World.tableIds] at this
      exact this

theorem wf_connSend {w w' : World} {m : String} {i : Nat} (hw : WfWorld w)
    (hok : Connection.send w m = .ok (i, w')) : WfWorld w' := by
  rw [Connection.send] at hok
  split at hok
  · cases hok
  · rw [Except.ok.injEq, Prod.mk.injEq] at hok
    obtain ⟨hi, hw'⟩ := hok
    rw [← hw']
    exact wf_connSend_aux w m hw

theorem wf_sessSend_aux (w : World) (h : Nat) (s : SessState) (m : String)
    (hw : WfWorld w) (hs : alookup w.sessHeap h = some s) :
    WfWorld { w with
      conn := ⟨w.conn.lastId + 1, w.conn.callbacks, w.conn.connected,
        w.conn.sessions, w.conn.closeCallbackSet, w.conn.closeCallbackCalls,
        w.conn.events⟩,
      sessHeap := aset w.sessHeap h ⟨s.lastId,
        s.callbacks ++ [(w.conn.lastId + 1, w.nextF)], s.hasConn,
        s.targetType, s.sessionId, s.children, s.events⟩,
      futures := w.futures ++ [(w.nextF, ⟨m, .pending⟩)],
      nextF := w.nextF + 1,
      outbox := w.outbox ++ [⟨w.conn.lastId + 1, m, s.sessionId⟩] } := by
  rcases alookup_decomp hw.heapKeysNodup hs with ⟨l1, l2, hdec, hk1, hk2⟩
  have haset := aset_decomp (⟨s.lastId,
    s.callbacks ++ [(w.conn.lastId + 1, w.nextF)], s.hasConn,
    s.targetType, s.sessionId, s.children, s.events⟩ : SessState) hdec hk1 hk2
  have hkeys : (aset w.sessHeap h (⟨s.lastId,
      s.callbacks ++ [(w.conn.lastId + 1, w.nextF)], s.hasConn,
      s.targetType, s.sessionId, s.children, s.events⟩ : SessState)).map
        Prod.fst = w.sessHeap.map Prod.fst :=
    aset_keys_present _ (by rw [hs]; rfl)
  have hnew : w.conn.lastId + 1 ∉ w.tableIds := by
    intro hmem
    have := hw.idBound _ hmem
    omega
  have hcnt0 : w.tableIds.count (w.conn.lastId + 1) = 0 :=
    List.count_eq_zero.mpr hnew
  have hcnt : ∀ j, (List.count j (w.conn.callbacks.map Prod.fst ++
      ((l1.map (fun p => p.2.callbacks.map Prod.fst)).flatten ++
        ((s.callbacks.map Prod.fst ++ [w.conn.lastId + 1]) ++
         (l2.map (fun p => p.2.callbacks.map Prod.fst)).flatten)))) =
      w.tableIds.count j + (if j = w.conn.lastId + 1 then 1 else 0) := by
    intro j
    rw [World.tableIds, hdec]
    simp only [List.map_append, List.map_cons, List.flatten_append,
      List.flatten_cons, List.count_append, List.count_singleton']
    by_cases hj : j = w.conn.lastId + 1
    · simp [hj]
      omega
    · simp [hj]
      omega
  have htid : ({ w with
      conn := ⟨w.conn.lastId + 1, w.conn.callbacks, w.conn.connected,
        w.conn.sessions, w.conn.closeCallbackSet, w.conn.closeCallbackCalls,
        w.conn.events⟩,
      sessHeap := aset w.sessHeap h ⟨s.lastId,
        s.callbacks ++ [(w.conn.lastId + 1, w.nextF)], s.hasConn,
        s.targetType, s.sessionId, s.children, s.events⟩,
      futures := w.futures ++ [(w.nextF, ⟨m, .pending⟩)],
      nextF := w.nextF + 1,
      outbox := w.outbox ++ [⟨w.conn.lastId + 1, m, s.sessionId⟩] } :
        World).tableIds =
      w.conn.callbacks.map Prod.fst ++
      ((l1.map (fun p => p.2.callbacks.map Prod.fst)).flatten ++
        ((s.callbacks.map Prod.fst ++ [w.conn.lastId + 1]) ++
         (l2.map (fun p => p.2.callbacks.map Prod.fst)).flatten)) := by
    rw [World.tableIds]
    show w.conn.callbacks.map Prod.fst ++ _ = _
    rw [haset]
    simp [List.map_append, List.flatten_append, List.append_assoc]
  refine ⟨?_, ?_, hw.regKeysNodup, hw.regHandlesNodup, hw.regHandlesLt,
    ?_, ?_, ?_⟩
  · show ((aset w.sessHeap h _).map Prod.fst).Nodup
    rw [hkeys]
    exact hw.heapKeysNodup
  · show ∀ k ∈ (aset w.sessHeap h _).map Prod.fst, k < w.nextH
    rw [hkeys]
    exact hw.heapKeysLt
  · intro j hj
    rw [htid] at hj
    have hpos : 0 < w.tableIds.count j + (if j = w.conn.lastId + 1 then 1 else 0) := by
      rw [← hcnt j]
      exact List.count_pos_iff.mpr hj
    show j ≤ w.conn.lastId + 1
    by_cases hj1 : j = w.conn.lastId + 1
    · omega
    · rw [if_neg hj1] at hpos
      have hjm : j ∈ w.tableIds := List.count_pos_iff.mp (by omega)
      have := hw.idBound _ hjm
      omega
  · rw [List.nodup_iff_count_le_one]
    intro j
    rw [htid, hcnt j]
    by_cases hj1 : j = w.conn.lastId + 1
    · rw [hj1, hcnt0]
      simp
    · rw [if_neg hj1]
      have := List.nodup_iff_count_le_one.mp hw.idNodup j
      omega
  · intro p hp
    show p.2.lastId = 0
    have : p ∈ l1 ++ (h, (⟨s.lastId,
        s.callbacks ++ [(w.conn.lastId + 1, w.nextF)], s.hasConn,
        s.targetType, s.sessionId, s.children, s.events⟩ : SessState)) :: l2 := by
      rw [← haset]
      exact hp
    rcases List.mem_append.mp this with h1 | h2
    · exact hw.sessLastId p (by rw [hdec]; exact List.mem_append_left _ h1)
    · rcases List.mem_cons.mp h2 with he | hr
      · rw [he]
        show s.lastId = 0
        exact hw.sessLastId (h, s) (by
          rw [hdec]
          exact List.mem_append_right _ (List.mem_cons_self _ _))
      · exact hw.sessLastId p (by
          rw [hdec]
          exact List.mem_append_right _ (List.mem_cons_of_mem _ hr))

theorem wf_sessSend {w w' : World} {h : Nat} {m : String} {i : Nat}
    (hw : WfWorld w) (hok : CDPSession.send w h m = .ok (i, w')) :
    WfWorld w' := by
  rw [CDPSession.send] at hok
  cases hheap : alookup w.sessHeap h with
  | none =>
    rw [hheap] at hok
    cases hok
  | some s =>
    rw [hheap] at hok
    split at hok
    · cases hok
    · rename_i s2 heq2
      rw [Option.some_inj] at heq2
      subst heq2
      split at hok
      · cases hok
      rename_i i0 s0 w0 heq
      simp only [CDPSession.sendCore] at heq
      split at heq
      · cases heq
      · rw [Except.ok.injEq, Prod.mk.injEq, Prod.mk.injEq] at heq
        obtain ⟨h1, h2, h3⟩ := heq
        subst h2
        subst h3
        rw [Except.ok.injEq, Prod.mk.injEq] at hok
        obtain ⟨hi, hw'⟩ := hok
        rw [← hw']
        exact wf_sessSend_aux w h s m hw hheap

theorem nodup_append_singleton {α : Type} {l : List α} {x : α}
    (hnd : l.Nodup) (hx : x ∉ l) : (l ++ [x]).Nodup := by
  rw [show l ++ [x] = l ++ x :: [] from rfl, List.nodup_middle, List.nodup_cons]
  rw [List.append_nil]
  exact ⟨hx, hnd⟩

theorem aset_absent {α β : Type} [DecidableEq α] {l : List (α × β)} {k : α}
    (v : β) (h : ¬ (alookup l k).isSome) : aset l k v = l ++ [(k, v)] := by
  rw [aset, if_neg h]

theorem wf_attachSession {w : World} (hw : WfWorld w) (psid : Option String)
    (tt : String) : WfWorld (attachSession w psid tt) := by
  have hkeys : (attachSession w psid tt).sessHeap.map Prod.fst =
      w.sessHeap.map Prod.fst ++ [w.nextH] := by
    rw [attachSession]
    simp
  have htid : (attachSession w psid tt).tableIds = w.tableIds := by
    rw [World.tableIds, World.tableIds, attachSession]
    simp
  refine ⟨?_, ?_, ?_, ?_, ?_, ?_, ?_, ?_⟩
  · rw [hkeys]
    refine nodup_append_singleton hw.heapKeysNodup ?_
    intro hmem
    have := hw.heapKeysLt _ hmem
    omega
  · rw [hkeys]
    intro k hk
    show k < w.nextH + 1
    rcases List.mem_append.mp hk with h1 | h2
    · have := hw.heapKeysLt _ h1
      omega
    · rcases List.mem_singleton.mp h2 with he
      omega
  · show ((aset w.conn.sessions psid w.nextH).map Prod.fst).Nodup
    by_cases hpres : (alookup w.conn.sessions psid).isSome
    · rw [aset_keys_present _ hpres]
      exact hw.regKeysNodup
    · rw [aset_absent _ hpres]
      rw [List.map_append]
      refine nodup_append_singleton hw.regKeysNodup ?_
      intro hmem
      exact hpres (by simpa using alookup_isSome_of_mem hmem)
  · show ((aset w.conn.sessions psid w.nextH).map Prod.snd).Nodup
    by_cases hpres : (alookup w.conn.sessions psid).isSome
    · rcases Option.isSome_iff_exists.mp hpres with ⟨v0, hv0⟩
      rcases alookup_decomp hw.regKeysNodup hv0 with ⟨l1, l2, hdec, h1, h2⟩
      rw [aset_decomp w.nextH hdec h1 h2]
      rw [List.map_append, List.map_cons]
      rw [List.nodup_middle, List.nodup_cons]
      have hold := hw.regHandlesNodup
      rw [hdec, List.map_append, List.map_cons, List.nodup_middle,
        List.nodup_cons] at hold
      constructor
      · intro hmem
        have hmem' : w.nextH ∈ w.conn.sessions.map Prod.snd := by
          rw [hdec]
          simp only [List.map_append, List.map_cons]
          rcases List.mem_append.mp hmem with ha | hb
          · exact List.mem_append_left _ ha
          · exact List.mem_append_right _ (List.mem_cons_of_mem _ hb)
        have := hw.regHandlesLt _ hmem'
        omega
      · exact hold.2
    · rw [aset_absent _ hpres]
      rw [List.map_append]
      refine nodup_append_singleton hw.regHandlesNodup ?_
      intro hmem
      have := hw.regHandlesLt _ hmem
      omega
  · show ∀ v ∈ (aset w.conn.sessions psid w.nextH).map Prod.snd, v < w.nextH + 1
    intro v hv
    by_cases hpres : (alookup w.conn.sessions psid).isSome
    · rcases Option.isSome_iff_exists.mp hpres with ⟨v0, hv0⟩
      rcases alookup_decomp hw.regKeysNodup hv0 with ⟨l1, l2, hdec, h1, h2⟩
      rw [aset_decomp w.nextH hdec h1 h2, List.map_append, List.map_cons] at hv
      rcases List.mem_append.mp hv with ha | hb
      · have : v ∈ w.conn.sessions.map Prod.snd := by
          rw [hdec]
          simp only [List.map_append, List.map_cons]
          exact List.mem_append_left _ ha
        have := hw.regHandlesLt _ this
        omega
      · rcases List.mem_cons.mp hb with he | hr
        · omega
        · have : v ∈ w.conn.sessions.map Prod.snd := by
            rw [hdec]
            simp only [List.map_append, List.map_cons]
            exact List.mem_append_right _ (List.mem_cons_of_mem _ hr)
          have := hw.regHandlesLt _ this
          omega
    · rw [aset_absent _ hpres, List.map_append] at hv
      rcases List.mem_append.mp hv with ha | hb
      · have := hw.regHandlesLt _ ha
        omega
      · rcases List.mem_singleton.mp hb with he
        omega
  · rw [htid]
    show ∀ i ∈ w.tableIds, i ≤ w.conn.lastId
    exact hw.idBound
  · rw [htid]
    exact hw.idNodup
  · intro p hp
    show p.2.lastId = 0
    rcases List.mem_append.mp hp with h1 | h2
    · exact hw.sessLastId p h1
    · rcases List.mem_singleton.mp h2 with he
      rw [he]

/-- Preservation helper for steps that keep the registry, the heap keys and
the id counter, and only shrink the callback tables. -/
theorem wf_of_counts {w w' : World} (hw : WfWorld w)
    (hconn : w'.conn.sessions = w.conn.sessions)
    (hlast : w'.conn.lastId = w.conn.lastId)
    (hkeys : w'.sessHeap.map Prod.fst = w.sessHeap.map Prod.fst)
    (hnextH : w'.nextH = w.nextH)
    (hcnt : ∀ j, w'.tableIds.count j ≤ w.tableIds.count j)
    (hlid : ∀ p ∈ w'.sessHeap, p.2.lastId = 0) :
    WfWorld w' := by
  refine ⟨?_, ?_, ?_, ?_, ?_, ?_, ?_, hlid⟩
  · rw [hkeys]
    exact hw.heapKeysNodup
  · rw [hkeys, hnextH]
    exact hw.heapKeysLt
  · rw [hconn]
    exact hw.regKeysNodup
  · rw [hconn]
    exact hw.regHandlesNodup
  · rw [hconn, hnextH]
    exact hw.regHandlesLt
  · intro j hj
    rw [hlast]
    have h1 := List.count_pos_iff.mpr hj
    have h2 := hcnt j
    exact hw.idBound _ (List.count_pos_iff.mp (by omega))
  · rw [List.nodup_iff_count_le_one]
    intro j
    have h1 := List.nodup_iff_count_le_one.mp hw.idNodup j
    have h2 := hcnt j
    omega

theorem wf_heapApply_onClosed {w : World} (hw : WfWorld w) (g : Nat) :
    WfWorld (heapApply w g CDPSession.onClosed) := by
  cases hg : alookup w.sessHeap g with
  | none =>
    rw [heapApply_none _ hg]
    exact hw
  | some s =>
    rw [heapApply_onClosed_some hg]
    rcases alookup_decomp hw.heapKeysNodup hg with ⟨l1, l2, hdec, h1, h2⟩
    have haset := aset_decomp (closedSess s) hdec h1 h2
    refine wf_of_counts hw ?_ ?_ ?_ ?_ ?_ ?_
    · show (settleAllTC w (s.callbacks.map Prod.snd)).conn.sessions = _
      rw [settleAllTC_conn]
    · show (settleAllTC w (s.callbacks.map Prod.snd)).conn.lastId = _
      rw [settleAllTC_conn]
    · show (aset w.sessHeap g (closedSess s)).map Prod.fst = _
      exact aset_keys_present _ (by rw [hg]; rfl)
    · show (settleAllTC w (s.callbacks.map Prod.snd)).nextH = _
      rw [settleAllTC_nextH]
    · intro j
      show (_ ++ ((aset w.sessHeap g (closedSess s)).map
        (fun p => p.2.callbacks.map Prod.fst)).flatten).count j ≤ _
      rw [World.tableIds, haset, hdec]
      show ((settleAllTC w (s.callbacks.map Prod.snd)).conn.callbacks.map
        Prod.fst ++ _).count j ≤ _
      rw [settleAllTC_conn]
      simp only [List.map_append, List.map_cons, List.flatten_append,
        List.flatten_cons, List.count_append, closedSess, List.map_nil,
        List.count_nil]
      omega
    · intro p hp
      show p.2.lastId = 0
      rw [show (({ settleAllTC w (s.callbacks.map Prod.snd) with
          sessHeap := aset w.sessHeap g (closedSess s) } : World)).sessHeap =
        aset w.sessHeap g (closedSess s) from rfl, haset] at hp
      rcases List.mem_append.mp hp with ha | hb
      · exact hw.sessLastId p (by rw [hdec]; exact List.mem_append_left _ ha)
      · rcases List.mem_cons.mp hb with he | hr
        · rw [he]
          show s.lastId = 0
          exact hw.sessLastId (g, s) (by
            rw [hdec]
            exact List.mem_append_right _ (List.mem_cons_self _ _))
        · exact hw.sessLastId p (by
            rw [hdec]
            exact List.mem_append_right _ (List.mem_cons_of_mem _ hr))

theorem wf_detachSession {w : World} (hw : WfWorld w) (psid : Option String) :
    WfWorld (detachSession w psid) := by
  rw [detachSession]
  cases hg : alookup w.conn.sessions psid with
  | none => exact hw
  | some g =>
    have hw1 : WfWorld { w with conn := { w.conn with
        sessions := w.conn.sessions.filter (fun p => p.1 != psid) } } := by
      refine ⟨hw.heapKeysNodup, hw.heapKeysLt, ?_, ?_, ?_, hw.idBound,
        hw.idNodup, hw.sessLastId⟩
      · exact hw.regKeysNodup.sublist ((List.filter_sublist _).map _)
      · exact hw.regHandlesNodup.sublist ((List.filter_sublist _).map _)
      · intro v hv
        refine hw.regHandlesLt v ?_
        rcases List.mem_map.mp hv with ⟨p, hp, hpv⟩
        exact hpv ▸ List.mem_map_of_mem Prod.snd (List.mem_of_mem_filter hp)
    exact wf_heapApply_onClosed hw1 g

theorem wf_connFallback {w : World} (hw : WfWorld w) (msg : Msg) :
    WfWorld (connFallback w msg) := by
  refine wf_of_counts hw (connFallback_conn_sessions w msg)
    (connFallback_lastId w msg) (by rw [connFallback_sessHeap])
    (connFallback_nextH w msg) ?_ ?_
  · intro j
    rw [World.tableIds, World.tableIds, connFallback_sessHeap]
    simp only [List.count_append]
    have hsub : ((connFallback w msg).conn.callbacks.map Prod.fst).Sublist
        (w.conn.callbacks.map Prod.fst) :=
      (connFallback_callbacks_sublist w msg).map _
    have := hsub.count_le j
    omega
  · rw [connFallback_sessHeap]
    exact hw.sessLastId

theorem wf_heapApply_route {w : World} (hw : WfWorld w) (g : Nat) (msg : Msg) :
    WfWorld (heapApply w g (fun s w => CDPSession.onMessage s w msg)) := by
  cases hg : alookup w.sessHeap g with
  | none =>
    rw [heapApply_none _ hg]
    exact hw
  | some s =>
    rw [heapApply, hg]
    dsimp only
    rcases alookup_decomp hw.heapKeysNodup hg with ⟨l1, l2, hdec, h1, h2⟩
    have hheq : (CDPSession.onMessage s w msg).2.sessHeap = w.sessHeap :=
      sessOnMessage_sessHeap s w msg
    have haset := aset_decomp (CDPSession.onMessage s w msg).1 hdec h1 h2
    refine wf_of_counts hw ?_ ?_ ?_ ?_ ?_ ?_
    · show (CDPSession.onMessage s w msg).2.conn.sessions = _
      rw [sessOnMessage_conn]
    · show (CDPSession.onMessage s w msg).2.conn.lastId = _
      rw [sessOnMessage_conn]
    · show (aset (CDPSession.onMessage s w msg).2.sessHeap g
        (CDPSession.onMessage s w msg).1).map Prod.fst = _
      rw [hheq]
      exact aset_keys_present _ (by rw [hg]; rfl)
    · show (CDPSession.onMessage s w msg).2.nextH = _
      rw [sessOnMessage_nextH]
    · intro j
      rw [World.tableIds, World.tableIds]
      show ((CDPSession.onMessage s w msg).2.conn.callbacks.map Prod.fst ++
        ((aset (CDPSession.onMessage s w msg).2.sessHeap g
          (CDPSession.onMessage s w msg).1).map
            (fun p => p.2.callbacks.map Prod.fst)).flatten).count j ≤ _
      rw [sessOnMessage_conn, hheq, haset, hdec]
      simp only [List.map_append, List.map_cons, List.flatten_append,
        List.flatten_cons, List.count_append]
      have hsub : (((CDPSession.onMessage s w msg).1.callbacks.map
          Prod.fst)).Sublist (s.callbacks.map Prod.fst) :=
        (sessOnMessage_callbacks_sublist s w msg).map _
      have := hsub.count_le j
      omega
    · intro p hp
      show p.2.lastId = 0
      rw [show (({ (CDPSession.onMessage s w msg).2 with
          sessHeap := aset (CDPSession.onMessage s w msg).2.sessHeap g
            (CDPSession.onMessage s w msg).1 } : World)).sessHeap =
        aset (CDPSession.onMessage s w msg).2.sessHeap g
          (CDPSession.onMessage s w msg).1 from rfl, hheq, haset] at hp
      rcases List.mem_append.mp hp with ha | hb
      · exact hw.sessLastId p (by rw [hdec]; exact List.mem_append_left _ ha)
      · rcases List.mem_cons.mp hb with he | hr
        · rw [he]
          show (CDPSession.onMessage s w msg).1.lastId = 0
          rw [sessOnMessage_lastId]
          exact hw.sessLastId (g, s) (by
            rw [hdec]
            exact List.mem_append_right _ (List.mem_cons_self _ _))
        · exact hw.sessLastId p (by
            rw [hdec]
            exact List.mem_append_right _ (List.mem_cons_of_mem _ hr))

theorem wf_routePhase {w : World} (hw : WfWorld w) (msg : Msg) :
    WfWorld (routePhase w msg) := by
  rw [routePhase]
  cases msg.sessionId with
  | none => exact wf_connFallback hw msg
  | some sid =>
    dsimp only
    by_cases hsid : sid = ""
    · rw [if_pos hsid]
      exact wf_connFallback hw msg
    · rw [if_neg hsid]
      cases alookup w.conn.sessions (some sid) with
      | none => exact hw
      | some g => exact wf_heapApply_route hw g msg

theorem wf_onMessage {w w' : World} {msg : Msg} (hw : WfWorld w)
    (hmsg : Connection.onMessage w msg = some w') : WfWorld w' := by
  rw [Connection.onMessage] at hmsg
  by_cases ha : msg.method.getD "" = "Target.attachedToTarget"
  · rw [if_pos ha] at hmsg
    cases htt : msg.params.targetInfoType with
    | none =>
      rw [htt] at hmsg
      cases hmsg
    | some tt =>
      rw [htt] at hmsg
      rw [Option.some_inj] at hmsg
      rw [← hmsg]
      exact wf_routePhase (wf_attachSession hw _ _) msg
  · rw [if_neg ha] at hmsg
    by_cases hd : msg.method.getD "" = "Target.detachedFromTarget"
    · rw [if_pos hd, Option.some_inj] at hmsg
      rw [← hmsg]
      exact wf_routePhase (wf_detachSession hw _) msg
    · rw [if_neg hd, Option.some_inj] at hmsg
      rw [← hmsg]
      exact wf_routePhase hw msg

theorem closeSessions_keys (regs : List (Option String × Nat)) (w : World) :
    (closeSessions w regs).sessHeap.map Prod.fst =
      w.sessHeap.map Prod.fst := by
  induction regs generalizing w with
  | nil => rfl
  | cons r rest ih =>
    rw [closeSessions_cons, ih]
    cases hg : alookup w.sessHeap r.2 with
    | none => rw [heapApply_none _ hg]
    | some s =>
      rw [heapApply_onClosed_some hg]
      exact aset_keys_present _ (by rw [hg]; rfl)

theorem closeSessions_nextH (regs : List (Option String × Nat)) (w : World) :
    (closeSessions w regs).nextH = w.nextH := by
  induction regs generalizing w with
  | nil => rfl
  | cons r rest ih =>
    rw [closeSessions_cons, ih]
    cases hg : alookup w.sessHeap r.2 with
    | none => rw [heapApply_none _ hg]
    | some s =>
      rw [heapApply_onClosed_some hg]
      exact settleAllTC_nextH _ _

theorem closeSessions_count (regs : List (Option String × Nat)) {w : World}
    (hk : (w.sessHeap.map Prod.fst).Nodup) (j : Nat) :
    ((closeSessions w regs).sessHeap.map
      (fun p => p.2.callbacks.map Prod.fst)).flatten.count j ≤
    (w.sessHeap.map (fun p => p.2.callbacks.map Prod.fst)).flatten.count j := by
  induction regs generalizing w with
  | nil => exact Nat.le_refl _
  | cons r rest ih =>
    rw [closeSessions_cons]
    cases hg : alookup w.sessHeap r.2 with
    | none =>
      rw [heapApply_none _ hg]
      exact ih hk
    | some s =>
      rw [heapApply_onClosed_some hg]
      rcases alookup_decomp hk hg with ⟨l1, l2, hdec, h1, h2⟩
      have haset := aset_decomp (closedSess s) hdec h1 h2
      have hk' : ((aset w.sessHeap r.2 (closedSess s)).map Prod.fst).Nodup := by
        rw [aset_keys_present _ (by rw [hg]; rfl)]
        exact hk
      refine Nat.le_trans (@ih { settleAllTC w (s.callbacks.map Prod.snd)
        with sessHeap := aset w.sessHeap r.2 (closedSess s) } hk') ?_
      show ((aset w.sessHeap r.2 (closedSess s)).map
        (fun p => p.2.callbacks.map Prod.fst)).flatten.count j ≤ _
      rw [haset, hdec]
      simp only [List.map_append, List.map_cons, List.flatten_append,
        List.flatten_cons, List.count_append, closedSess, List.map_nil,
        List.count_nil]
      omega

theorem closeSessions_lastId0 (regs : List (Option String × Nat)) {w : World}
    (hk : (w.sessHeap.map Prod.fst).Nodup)
    (hl : ∀ p ∈ w.sessHeap, p.2.lastId = 0) :
    ∀ p ∈ (closeSessions w regs).sessHeap, p.2.lastId = 0 := by
  induction regs generalizing w with
  | nil => exact hl
  | cons r rest ih =>
    rw [closeSessions_cons]
    cases hg : alookup w.sessHeap r.2 with
    | none =>
      rw [heapApply_none _ hg]
      exact ih hk hl
    | some s =>
      rw [heapApply_onClosed_some hg]
      rcases alookup_decomp hk hg with ⟨l1, l2, hdec, h1, h2⟩
      have haset := aset_decomp (closedSess s) hdec h1 h2
      have hk' : ((aset w.sessHeap r.2 (closedSess s)).map Prod.fst).Nodup := by
        rw [aset_keys_present _ (by rw [hg]; rfl)]
        exact hk
      refine ih hk' ?_
      show ∀ p ∈ aset w.sessHeap r.2 (closedSess s), p.2.lastId = 0
      intro p hp
      rw [haset] at hp
      rcases List.mem_append.mp hp with ha | hb
      · exact hl p (by rw [hdec]; exact List.mem_append_left _ ha)
      · rcases List.mem_cons.mp hb with he | hr
        · rw [he]
          show s.lastId = 0
          exact hl (r.2, s) (by
            rw [hdec]
            exact List.mem_append_right _ (List.mem_cons_self _ _))
        · exact hl p (by
            rw [hdec]
            exact List.mem_append_right _ (List.mem_cons_of_mem _ hr))

theorem wf_connTeardown {w : World} (hw : WfWorld w) :
    WfWorld (connTeardown w) := by
  have hkeys : (connTeardown w).sessHeap.map Prod.fst =
      w.sessHeap.map Prod.fst := by
    simp only [connTeardown, settleAllTC_conn, settleAllTC_sessHeap]
    exact closeSessions_keys _ _
  have hnextH : (connTeardown w).nextH = w.nextH := by
    simp only [connTeardown, settleAllTC_conn, settleAllTC_sessHeap,
      settleAllTC_nextH]
    exact closeSessions_nextH _ _
  have hcnt : ∀ j, (connTeardown w).tableIds.count j ≤
      w.tableIds.count j := by
    intro j
    rw [World.tableIds, World.tableIds, connTeardown_callbacks]
    simp only [List.map_nil, List.nil_append, List.count_append]
    have hflat : ((connTeardown w).sessHeap.map
        (fun p => p.2.callbacks.map Prod.fst)).flatten.count j ≤
        (w.sessHeap.map (fun p => p.2.callbacks.map Prod.fst)).flatten.count j := by
      simp only [connTeardown, settleAllTC_conn, settleAllTC_sessHeap]
      refine closeSessions_count w.conn.sessions ?_ j
      exact hw.heapKeysNodup
    omega
  refine ⟨?_, ?_, ?_, ?_, ?_, ?_, ?_, ?_⟩
  · rw [hkeys]
    exact hw.heapKeysNodup
  · rw [hkeys, hnextH]
    exact hw.heapKeysLt
  · rw [connTeardown_sessions]
    exact List.nodup_nil
  · rw [connTeardown_sessions]
    exact List.nodup_nil
  · rw [connTeardown_sessions]
    intro v hv
    cases hv
  · intro j hj
    rw [connTeardown_lastId]
    have h1 := List.count_pos_iff.mpr hj
    have h2 := hcnt j
    exact hw.idBound _ (List.count_pos_iff.mp (by omega))
  · rw [List.nodup_iff_count_le_one]
    intro j
    have h1 := List.nodup_iff_count_le_one.mp hw.idNodup j
    have h2 := hcnt j
    omega
  · simp only [connTeardown, settleAllTC_conn, settleAllTC_sessHeap]
    refine closeSessions_lastId0 w.conn.sessions ?_ ?_
    · exact hw.heapKeysNodup
    · exact hw.sessLastId

theorem wf_closeCallbackStage {w : World} (hw : WfWorld w) :
    WfWorld (closeCallbackStage w) := by
  rw [closeCallbackStage]
  split
  · exact ⟨hw.heapKeysNodup, hw.heapKeysLt, hw.regKeysNodup,
      hw.regHandlesNodup, hw.regHandlesLt, hw.idBound, hw.idNodup,
      hw.sessLastId⟩
  · exact hw

theorem wf_dispose {w : World} (hw : WfWorld w) :
    WfWorld (Connection.dispose w) := by
  rw [Connection.dispose, Connection.onClose]
  refine wf_connTeardown (wf_closeCallbackStage ?_)
  exact ⟨hw.heapKeysNodup, hw.heapKeysLt, hw.regKeysNodup,
    hw.regHandlesNodup, hw.regHandlesLt, hw.idBound, hw.idNodup,
    hw.sessLastId⟩

theorem wf_asyncSendFail {w : World} (hw : WfWorld w) (i : Nat) :
    WfWorld (Connection.asyncSendFail w i) := by
  rw [Connection.asyncSendFail]
  cases alookup w.conn.callbacks i with
  | none => exact hw
  | some fh =>
    dsimp only
    cases alookup w.futures fh with
    | none => exact hw
    | some fut =>
      dsimp only
      split
      · exact wf_dispose (wf_setFutureState hw _ _)
      · exact hw

theorem wf_createChild {w : World} (hw : WfWorld w) (h : Nat)
    (tt sid : String) : WfWorld (CDPSession.createSession w h tt sid) := by
  rw [CDPSession.createSession]
  cases hg : alookup w.sessHeap h with
  | none => rw [heapApply_none _ hg]; exact hw
  | some s =>
    rw [heapApply, hg]
    dsimp only
    rcases alookup_decomp hw.heapKeysNodup hg with ⟨l1, l2, hdec, h1, h2⟩
    have hch : h < w.nextH := by
      refine hw.heapKeysLt h ?_
      rw [hdec]
      simp
    have hext : w.sessHeap ++
        [(w.nextH, (⟨0, [], s.hasConn, tt, some sid, [], []⟩ : SessState))] =
        l1 ++ (h, s) :: (l2 ++
          [(w.nextH, (⟨0, [], s.hasConn, tt, some sid, [], []⟩ : SessState))]) := by
      rw [hdec, List.append_assoc]
      rfl
    have h2' : h ∉ (l2 ++
        [(w.nextH, (⟨0, [], s.hasConn, tt, some sid, [], []⟩ : SessState))]).map
          Prod.fst := by
      rw [List.map_append]
      intro hmem
      rcases List.mem_append.mp hmem with ha | hb
      · exact h2 ha
      · rcases List.mem_singleton.mp hb with he
        omega
    have haset := aset_decomp (⟨s.lastId, s.callbacks, s.hasConn,
      s.targetType, s.sessionId, aset s.children sid w.nextH, s.events⟩ :
        SessState) hext h1 h2'
    have hkeys : ((aset (w.sessHeap ++
        [(w.nextH, (⟨0, [], s.hasConn, tt, some sid, [], []⟩ : SessState))]) h
        ⟨s.lastId, s.callbacks, s.hasConn, s.targetType, s.sessionId,
          aset s.children sid w.nextH, s.events⟩).map Prod.fst) =
        w.sessHeap.map Prod.fst ++ [w.nextH] := by
    
      rw [aset_keys_present _ (by
        rw [alookup_append_left _ hg]
        rfl)]
      simp
    have hcnt : ∀ j, ((aset (w.sessHeap ++
        [(w.nextH, (⟨0, [], s.hasConn, tt, some sid, [], []⟩ : SessState))]) h
        ⟨s.lastId, s.callbacks, s.hasConn, s.targetType, s.sessionId,
          aset s.children sid w.nextH, s.events⟩).map
          (fun p => p.2.callbacks.map Prod.fst)).flatten.count j =
        (w.sessHeap.map (fun p => p.2.callbacks.map Prod.fst)).flatten.count j := by
      intro j
      rw [haset, hdec]
      simp only [List.map_append, List.map_cons, List.flatten_append,
        List.flatten_cons, List.count_append, List.map_nil, List.count_nil,
        List.flatten_nil]
      omega
    refine ⟨?_, ?_, hw.regKeysNodup, hw.regHandlesNodup, ?_, ?_, ?_, ?_⟩
    · show ((aset _ h _).map Prod.fst).Nodup
      rw [hkeys]
      refine nodup_append_singleton hw.heapKeysNodup ?_
      intro hmem
      have := hw.heapKeysLt _ hmem
      omega
    · show ∀ k ∈ (aset _ h _).map Prod.fst, k < w.nextH + 1
      rw [hkeys]
      intro k hk
      rcases List.mem_append.mp hk with ha | hb
      · have := hw.heapKeysLt _ ha
        omega
      · rcases List.mem_singleton.mp hb with he
        omega
    · show ∀ v ∈ w.conn.sessions.map Prod.snd, v < w.nextH + 1
      intro v hv
      have := hw.regHandlesLt _ hv
      omega
    · intro j hj
      rw [World.tableIds] at hj
      dsimp only at hj
      show j ≤ w.conn.lastId
      refine hw.idBound j ?_
      rw [World.tableIds]
      have hpos := List.count_pos_iff.mpr hj
      rw [List.count_append, hcnt j] at hpos
      refine List.count_pos_iff.mp ?_
      rw [List.count_append]
      omega
    · rw [List.nodup_iff_count_le_one]
      intro j
      rw [World.tableIds, List.count_append]
      dsimp only
      rw [hcnt j]
      have h1 := List.nodup_iff_count_le_one.mp hw.idNodup j
      rw [World.tableIds, List.count_append] at h1
      omega
    · intro p hp
      show p.2.lastId = 0
      dsimp only at hp
      rw [haset] at hp
      rcases List.mem_append.mp hp with ha | hb
      · exact hw.sessLastId p (by rw [hdec]; exact List.mem_append_left _ ha)
      · rcases List.mem_cons.mp hb with he | hr
        · rw [he]
          show s.lastId = 0
          exact hw.sessLastId (h, s) (by
            rw [hdec]
            exact List.mem_append_right _ (List.mem_cons_self _ _))
        · rcases List.mem_append.mp hr with hra | hrb
          · exact hw.sessLastId p (by
              rw [hdec]
              exact List.mem_append_right _ (List.mem_cons_of_mem _ hra))
          · rcases List.mem_singleton.mp hrb with he
            rw [he]

theorem wf_step {w : World} (hw : WfWorld w) (op : Op) :
    WfWorld (step w op) := by
  cases op with
  | connSend m =>
    dsimp only [step]
    cases hok : Connection.send w m with
    | ok p => exact wf_connSend hw (by rw [hok])
    | error e => exact hw
  | sessSend h m =>
    dsimp only [step]
    cases hok : CDPSession.send w h m with
    | ok p => exact wf_sessSend hw (by rw [hok])
    | error e => exact hw
  | inbound msg =>
    dsimp only [step]
    cases hmsg : Connection.onMessage w msg with
    | some w' => exact wf_onMessage hw hmsg
    | none =>
      dsimp only
      split
      · exact wf_dispose hw
      · exact hw
  | dispose => exact wf_dispose hw
  | setConnected => exact wf_setConnected hw
  | setClosedCallback => exact wf_setClosedCallback hw
  | asyncSendFail i => exact wf_asyncSendFail hw i
  | createChild h tt sid => exact wf_createChild hw h tt sid

theorem wf_run_from {w : World} (hw : WfWorld w) (ops : List Op) :
    WfWorld (run w ops) := by
  induction ops generalizing w with
  | nil => exact hw
  | cons op rest ih => exact ih (wf_step hw op)

theorem wf_run (ops : List Op) : WfWorld (run initWorld ops) :=
  wf_run_from wf_initWorld ops

/-! ### C6 — per-scope id uniqueness -/

/-- C6: in every reachable state, the ids of the requests outstanding in any
one scope's callback table — the Connection's, or any Session's — are
pairwise distinct: no two calls of a scope that are simultaneously pending
were assigned the same request id. -/
theorem scoped_request_ids_unique (ops : List Op) :
    ((run initWorld ops).conn.callbacks.map Prod.fst).Nodup ∧
    ∀ p ∈ (run initWorld ops).sessHeap,
      (p.2.callbacks.map Prod.fst).Nodup := by
  have hw := wf_run ops
  constructor
  · refine hw.idNodup.sublist ?_
    rw [World.tableIds]
    exact List.sublist_append_left _ _
  · intro p hp
    refine hw.idNodup.sublist ?_
    rw [World.tableIds]
    refine List.Sublist.trans ?_ (List.sublist_append_right _ _)
    exact List.sublist_flatten_of_mem
      (List.mem_map_of_mem (fun p => p.2.callbacks.map Prod.fst) hp)

/-! ### C10 — all ids from the root counter, globally unique -/

/-- C10: every request id is allocated by the root Connection's counter —
each outstanding id is bounded by `Connection._lastId`, while every
Session's own `_lastId` stays at its initial 0 (it is never consulted or
incremented) — and consequently the outstanding request ids of the
Connection's table and of every Session's table are distinct globally, not
merely within one scope. -/
theorem request_ids_globally_unique (ops : List Op) :
    (∀ i ∈ (run initWorld ops).tableIds,
       i ≤ (run initWorld ops).conn.lastId) ∧
    (run initWorld ops).tableIds.Nodup ∧
    ∀ p ∈ (run initWorld ops).sessHeap, p.2.lastId = 0 :=
  ⟨(wf_run ops).idBound, (wf_run ops).idNodup, (wf_run ops).sessLastId⟩

/-! ### C5 — attach then detach -/

/-- `f` is an attach notification frame for session id `S`. -/
def frameAttachesFor (f : Frame) (S : String) : Bool :=
  match f with
  | .frame m => m.method == some "Target.attachedToTarget" &&
      m.params.sessionId == some S
  | _ => false

/-- The session object at handle `h` (target kind `t`) is tracked for id `S`:
either it is registered under `S` on a connected connection, or it has been
closed — absent from the registry, parent reference cleared. -/
def sessionDetachedAt (w : World) (h : Nat) (t : String) (S : String) : Prop :=
  alookup w.conn.sessions (some S) = none ∧
  ∃ s, alookup w.sessHeap h = some s ∧ s.targetType = t ∧ s.hasConn = false

def tracksSession (w : World) (h : Nat) (t : String) (S : String) : Prop :=
  (alookup w.conn.sessions (some S) = some h ∧ w.conn.connected = true ∧
    ∃ s, alookup w.sessHeap h = some s ∧ s.targetType = t) ∨
  sessionDetachedAt w h t S

theorem heapApply_onClosed_nextH (w : World) (g : Nat) :
    (heapApply w g CDPSession.onClosed).nextH = w.nextH := by
  cases hg : alookup w.sessHeap g with
  | none => rw [heapApply_none _ hg]
  | some s =>
    rw [heapApply_onClosed_some hg]
    exact settleAllTC_nextH _ _

theorem heapApply_route_conn (w : World) (g : Nat) (msg : Msg) :
    (heapApply w g (fun s w => CDPSession.onMessage s w msg)).conn = w.conn := by
  rw [heapApply]
  cases alookup w.sessHeap g with
  | none => rfl
  | some s => exact sessOnMessage_conn s w msg

theorem routePhase_connected (w : World) (msg : Msg) :
    (routePhase w msg).conn.connected = w.conn.connected := by
  rw [routePhase]
  cases msg.sessionId with
  | none => exact connFallback_connected w msg
  | some sid =>
    dsimp only
    split
    · exact connFallback_connected w msg
    · cases alookup w.conn.sessions (some sid) with
      | none => rfl
      | some g => exact congrArg ConnState.connected (heapApply_route_conn w g msg)

theorem routePhase_sessions (w : World) (msg : Msg) :
    (routePhase w msg).conn.sessions = w.conn.sessions := by
  rw [routePhase]
  cases msg.sessionId with
  | none => exact connFallback_conn_sessions w msg
  | some sid =>
    dsimp only
    split
    · exact connFallback_conn_sessions w msg
    · cases alookup w.conn.sessions (some sid) with
      | none => rfl
      | some g => exact congrArg ConnState.sessions (heapApply_route_conn w g msg)

theorem heapApply_route_some {w : World} {g : Nat} {s : SessState} (msg : Msg)
    (hs : alookup w.sessHeap g = some s) :
    heapApply w g (fun s w => CDPSession.onMessage s w msg) =
      { (CDPSession.onMessage s w msg).2 with
        sessHeap := aset (CDPSession.onMessage s w msg).2.sessHeap g
          (CDPSession.onMessage s w msg).1 } := by
  rw [heapApply, hs]

theorem routePhase_heap_track {w : World} {msg : Msg} {h : Nat} {s : SessState}
    (hs : alookup w.sessHeap h = some s) :
    ∃ s', alookup (routePhase w msg).sessHeap h = some s' ∧
      s'.targetType = s.targetType ∧ s'.hasConn = s.hasConn := by
  rw [routePhase]
  cases msg.sessionId with
  | none => exact ⟨s, by rw [connFallback_sessHeap]; exact hs, rfl, rfl⟩
  | some sid =>
    dsimp only
    split
    · exact ⟨s, by rw [connFallback_sessHeap]; exact hs, rfl, rfl⟩
    · cases alookup w.conn.sessions (some sid) with
      | none => exact ⟨s, hs, rfl, rfl⟩
      | some g =>
        dsimp only
        cases hg : alookup w.sessHeap g with
        | none =>
          rw [heapApply_none _ hg]
          exact ⟨s, hs, rfl, rfl⟩
        | some sg =>
          rw [heapApply_route_some msg hg]
          dsimp only
          rw [sessOnMessage_sessHeap]
          by_cases hgh : h = g
          · subst hgh
            rw [hs, Option.some_inj] at hg
            subst hg
            exact ⟨(CDPSession.onMessage s w msg).1,
              alookup_aset_self _ _ _,
              sessOnMessage_targetType s w msg,
              sessOnMessage_hasConn s w msg⟩
          · exact ⟨s, by rw [alookup_aset_ne _ _ hgh]; exact hs, rfl, rfl⟩

theorem routePhase_track {w : World} {msg : Msg} {h : Nat} {t S : String}
    (htr : tracksSession w h t S) :
    tracksSession (routePhase w msg) h t S := by
  rcases htr with ⟨hreg, hcon, s, hs, ht⟩ | ⟨hreg, s, hs, ht, hhc⟩
  · left
    rcases @routePhase_heap_track _ msg _ _ hs with ⟨s', hs', ht', _⟩
    exact ⟨by rw [routePhase_sessions]; exact hreg,
      by rw [routePhase_connected]; exact hcon, s', hs', by rw [ht', ht]⟩
  · right
    rcases @routePhase_heap_track _ msg _ _ hs with ⟨s', hs', ht', hc'⟩
    exact ⟨by rw [routePhase_sessions]; exact hreg, s', hs',
      by rw [ht', ht], by rw [hc', hhc]⟩

theorem routePhase_detached {w : World} {msg : Msg} {h : Nat} {t S : String}
    (hd : sessionDetachedAt w h t S) :
    sessionDetachedAt (routePhase w msg) h t S := by
  rcases hd with ⟨hreg, s, hs, ht, hhc⟩
  rcases @routePhase_heap_track _ msg _ _ hs with ⟨s', hs', ht', hc'⟩
  exact ⟨by rw [routePhase_sessions]; exact hreg, s', hs',
    by rw [ht', ht], by rw [hc', hhc]⟩

theorem detachS_closes {w : World} {h : Nat} {t S : String}
    (htr : tracksSession w h t S) :
    sessionDetachedAt (detachSession w (some S)) h t S := by
  rcases htr with ⟨hreg, hcon, s, hs, ht⟩ | ⟨hreg, s, hs, ht, hhc⟩
  · rw [detachSession, hreg]
    dsimp only
    constructor
    · rw [heapApply_onClosed_conn]
      exact alookup_filterKey_self _ _
    · refine ⟨closedSess s, ?_, ht, rfl⟩
      rw [heapApply_onClosed_some (by exact hs)]
      exact alookup_aset_self _ _ _
  · rw [detachSession, hreg]
    exact ⟨hreg, s, hs, ht, hhc⟩

theorem detachS_other {w : World} {h : Nat} {t S : String}
    {psid : Option String} (hw : WfWorld w) (hne : ¬ psid = some S)
    (htr : tracksSession w h t S) :
    tracksSession (detachSession w psid) h t S := by
  rw [detachSession]
  cases hg : alookup w.conn.sessions psid with
  | none => exact htr
  | some g =>
    dsimp only
    have hSne : ¬ (some S : Option String) = psid := fun he => hne he.symm
    rcases htr with ⟨hreg, hcon, s, hs, ht⟩ | ⟨hreg, s, hs, ht, hhc⟩
    · -- still attached; the detached session is a different object
      have hgh : ¬ h = g := by
        intro he
        subst he
        have hne' : ((some S, h) : Option String × Nat) ≠ (psid, h) := by
          intro hpq
          exact hSne (congrArg Prod.fst hpq)
        exact hne' (List.inj_on_of_nodup_map hw.regHandlesNodup
          (alookup_mem hreg) (alookup_mem hg) rfl)
      left
      refine ⟨?_, ?_, s, ?_, ht⟩
      · rw [heapApply_onClosed_conn]
        dsimp only
        rw [alookup_filterKey_ne _ hSne]
        exact hreg
      · rw [heapApply_onClosed_conn]
        exact hcon
      · cases hgs : alookup w.sessHeap g with
        | none =>
          rw [heapApply_none _ (by exact hgs)]
          exact hs
        | some sg =>
          rw [heapApply_onClosed_some (by exact hgs)]
          dsimp only
          rw [alookup_aset_ne _ _ hgh]
          exact hs
    · right
      refine ⟨?_, ?_⟩
      · rw [heapApply_onClosed_conn]
        dsimp only
        rw [alookup_filterKey_ne _ hSne]
        exact hreg
      · by_cases hgh : h = g
        · subst hgh
          cases hgs : alookup w.sessHeap h with
          | none =>
            rw [heapApply_none _ (by exact hgs)]
            exact ⟨s, hs, ht, hhc⟩
          | some sg =>
            rw [hs, Option.some_inj] at hgs
            subst hgs
            refine ⟨closedSess s, ?_, ht, rfl⟩
            rw [heapApply_onClosed_some (by exact hs)]
            exact alookup_aset_self _ _ _
        · cases hgs : alookup w.sessHeap g with
          | none =>
            rw [heapApply_none _ (by exact hgs)]
            exact ⟨s, hs, ht, hhc⟩
          | some sg =>
            rw [heapApply_onClosed_some (by exact hgs)]
            refine ⟨s, ?_, ht, hhc⟩
            dsimp only
            rw [alookup_aset_ne _ _ hgh]
            exact hs

theorem attachS_track {w : World} {h : Nat} {t S : String}
    {psid : Option String} {tt : String} (hne : ¬ psid = some S)
    (htr : tracksSession w h t S) :
    tracksSession (attachSession w psid tt) h t S := by
  have hSne : ¬ (some S : Option String) = psid := fun he => hne he.symm
  rcases htr with ⟨hreg, hcon, s, hs, ht⟩ | ⟨hreg, s, hs, ht, hhc⟩
  · left
    refine ⟨?_, hcon, s, ?_, ht⟩
    · show alookup (aset w.conn.sessions psid w.nextH) (some S) = some h
      rw [alookup_aset_ne _ _ hSne]
      exact hreg
    · exact alookup_append_left _ hs
  · right
    refine ⟨?_, s, alookup_append_left _ hs, ht, hhc⟩
    show alookup (aset w.conn.sessions psid w.nextH) (some S) = none
    rw [alookup_aset_ne _ _ hSne]
    exact hreg

theorem onMessage_track {w w' : World} {msg : Msg} {h : Nat} {t S : String}
    (hw : WfWorld w) (hmsg : Connection.onMessage w msg = some w')
    (hnotS : ¬ (msg.method = some "Target.attachedToTarget" ∧
      msg.params.sessionId = some S))
    (htr : tracksSession w h t S) : tracksSession w' h t S := by
  rw [Connection.onMessage] at hmsg
  by_cases ha : msg.method.getD "" = "Target.attachedToTarget"
  · rw [if_pos ha] at hmsg
    cases htt : msg.params.targetInfoType with
    | none =>
      rw [htt] at hmsg
      cases hmsg
    | some tt =>
      rw [htt, Option.some_inj] at hmsg
      rw [← hmsg]
      have hma : msg.method = some "Target.attachedToTarget" := by
        rcases hmm : msg.method with _ | m
        · rw [hmm] at ha
          exact absurd ha (by decide)
        · rw [hmm] at ha
          exact congrArg some ha
      have hne : ¬ msg.params.sessionId = some S :=
        fun he => hnotS ⟨hma, he⟩
      exact routePhase_track (attachS_track hne htr)
  · rw [if_neg ha] at hmsg
    by_cases hd : msg.method.getD "" = "Target.detachedFromTarget"
    · rw [if_pos hd, Option.some_inj] at hmsg
      rw [← hmsg]
      by_cases hps : msg.params.sessionId = some S
      · rw [hps]
        exact routePhase_track (Or.inr (detachS_closes htr))
      · exact routePhase_track (detachS_other hw hps htr)
    · rw [if_neg hd, Option.some_inj] at hmsg
      rw [← hmsg]
      exact routePhase_track htr

theorem dispose_detached {w : World} {h : Nat} {t S : String}
    (hw : WfWorld w) (htr : tracksSession w h t S) :
    sessionDetachedAt (Connection.dispose w) h t S := by
  constructor
  · rw [dispose_sessions]
    rfl
  · rcases htr with ⟨hreg, _, s, hs, ht⟩ | ⟨_, s, hs, ht, hhc⟩
    · refine ⟨closedSess s, ?_, ht, rfl⟩
      exact dispose_closed_mem hw.regHandlesNodup (alookup_mem hreg) hs
    · by_cases hmem : h ∈ w.conn.sessions.map Prod.snd
      · rcases List.mem_map.mp hmem with ⟨q, hq, hq2⟩
        refine ⟨closedSess s, ?_, ht, rfl⟩
        rw [← hq2]
        exact dispose_closed_mem hw.regHandlesNodup hq (by rw [hq2]; exact hs)
      · exact ⟨s, by rw [dispose_heap_not_mem hmem]; exact hs, ht, hhc⟩

theorem notConnected_detached {w₂ : World} {h : Nat} {t S : String}
    (hc : ¬ w₂.conn.connected = true) (htr : tracksSession w₂ h t S) :
    sessionDetachedAt w₂ h t S := by
  rcases htr with ⟨_, hcon, _⟩ | hd
  · exact absurd hcon hc
  · exact hd

theorem c5_aux (S t : String) (h : Nat) :
    ∀ ms : List Frame, (∀ f ∈ ms, frameAttachesFor f S = false) →
    ∀ w₂ : World, WfWorld w₂ → tracksSession w₂ h t S →
    sessionDetachedAt (recvLoopGo w₂ (ms ++ [.frame (detachMsg S)])) h t S := by
  intro ms
  induction ms with
  | nil =>
    intro _ w₂ hw₂ htr
    rw [List.nil_append]
    by_cases hc : w₂.conn.connected = true
    · rw [recvLoopGo, if_pos hc]
      have hne1 : ¬ (detachMsg S).method.getD "" = "Target.attachedToTarget" := by
        show ¬ "Target.detachedFromTarget" = "Target.attachedToTarget"
        decide
      have heq2 : (detachMsg S).method.getD "" = "Target.detachedFromTarget" := rfl
      have hdm : Connection.onMessage w₂ (detachMsg S) =
          some (routePhase (detachSession w₂ (some S)) (detachMsg S)) := by
        rw [Connection.onMessage, if_neg hne1, if_pos heq2]
        rfl
      rw [hdm]
      exact routePhase_detached (detachS_closes htr)
    · rw [recvLoopGo, if_neg hc]
      exact notConnected_detached hc htr
  | cons f rest ih =>
    intro hmid w₂ hw₂ htr
    rw [List.cons_append]
    cases f with
    | closed =>
      by_cases hc : w₂.conn.connected = true
      · rw [recvLoopGo, if_pos hc]
        exact dispose_detached hw₂ htr
      · rw [recvLoopGo, if_neg hc]
        exact notConnected_detached hc htr
    | malformed =>
      by_cases hc : w₂.conn.connected = true
      · rw [recvLoopGo, if_pos hc]
        exact dispose_detached hw₂ htr
      · rw [recvLoopGo, if_neg hc]
        exact notConnected_detached hc htr
    | frame m =>
      by_cases hc : w₂.conn.connected = true
      · rw [recvLoopGo, if_pos hc]
        cases hom : Connection.onMessage w₂ m with
        | none => exact dispose_detached hw₂ htr
        | some w₄ =>
          have hfa := hmid (.frame m) (List.mem_cons_self _ _)
          have hnotS : ¬ (m.method = some "Target.attachedToTarget" ∧
              m.params.sessionId = some S) := by
            intro hand
            rw [frameAttachesFor, hand.1, hand.2] at hfa
            simp at hfa
          exact ih (fun f hf => hmid f (List.mem_cons_of_mem _ hf)) w₄
            (wf_onMessage hw₂ hom) (onMessage_track hw₂ hom hnotS htr)
      · rw [recvLoopGo, if_neg hc]
        exact notConnected_detached hc htr

/-- C5. For any starting world and any run of the receive loop that
processes an attach notification for session id `S` (target kind `t`),
then any frames none of which is another attach for `S`, then a detach
notification for `S`: afterwards `S` is absent from the connection's
session registry, and `CDPSession.send` on the session object that the
attach created (heap handle `w.nextH`) returns the session-closed
`NetworkError` synchronously — `Protocol Error (method): Session closed.
Most likely the t has been closed.` — transmitting nothing. -/
theorem attach_then_detach_session_closed (w : World) (S t : String)
    (ms : List Frame) (hw : WfWorld w)
    (hmid : ∀ f ∈ ms, frameAttachesFor f S = false) :
    alookup (recvLoop w (.frame (attachMsg S t) ::
        (ms ++ [.frame (detachMsg S)]))).conn.sessions (some S) = none ∧
    ∀ m : String,
      CDPSession.send (recvLoop w (.frame (attachMsg S t) ::
          (ms ++ [.frame (detachMsg S)]))) w.nextH m =
        .error (sessionClosedMsg m t) := by
  have hw1 : WfWorld (setConnected w) := wf_setConnected hw
  have ham : Connection.onMessage (setConnected w) (attachMsg S t) =
      some (routePhase (attachSession (setConnected w) (some S) t)
        (attachMsg S t)) := by
    have heq1 : (attachMsg S t).method.getD "" = "Target.attachedToTarget" := rfl
    rw [Connection.onMessage, if_pos heq1]
    rfl
  have hwf1 : WfWorld (routePhase (attachSession (setConnected w) (some S) t)
      (attachMsg S t)) := wf_onMessage hw1 ham
  have hfresh : alookup w.sessHeap w.nextH = none := by
    apply alookup_not_mem
    intro hmem
    exact absurd (hw.heapKeysLt _ hmem) (lt_irrefl _)
  have htr1 : tracksSession (routePhase (attachSession (setConnected w)
      (some S) t) (attachMsg S t)) w.nextH t S := by
    apply routePhase_track
    left
    refine ⟨alookup_aset_self _ _ _, rfl, ⟨0, [], true, t, some S, [], []⟩,
      ?_, rfl⟩
    show alookup (w.sessHeap ++ [(w.nextH, _)]) w.nextH = _
    rw [alookup_append_right _ hfresh, alookup, if_pos rfl]
  have hrun : recvLoop w (.frame (attachMsg S t) ::
      (ms ++ [.frame (detachMsg S)])) =
      recvLoopGo (routePhase (attachSession (setConnected w) (some S) t)
        (attachMsg S t)) (ms ++ [.frame (detachMsg S)]) := by
    rw [recvLoop, recvLoopGo,
      if_pos (show (setConnected w).conn.connected = true from rfl), ham]
  rw [hrun]
  rcases c5_aux S t w.nextH ms hmid _ hwf1 htr1 with ⟨hreg, s, hs, ht, hhc⟩
  refine ⟨hreg, ?_⟩
  intro m
  have hcore : CDPSession.sendCore s (recvLoopGo (routePhase (attachSession
      (setConnected w) (some S) t) (attachMsg S t))
      (ms ++ [.frame (detachMsg S)])) m = .error (sessionClosedMsg m t) := by
    simp only [CDPSession.sendCore]
    rw [if_pos (by simp [hhc]), ht]
  rw [CDPSession.send, hs]
  dsimp only
  rw [hcore]

theorem attach_then_detach_session_closed_witness :
    alookup (recvLoop initWorld [.frame (attachMsg "S" "page"),
      .frame (detachMsg "S")]).conn.sessions (some "S") = none ∧
    CDPSession.send (recvLoop initWorld [.frame (attachMsg "S" "page"),
      .frame (detachMsg "S")]) initWorld.nextH "Foo.bar" =
      .error (sessionClosedMsg "Foo.bar" "page") :=
  ⟨(attach_then_detach_session_closed initWorld "S" "page" [] wf_initWorld
      (by intro f hf; exact absurd hf (List.not_mem_nil f))).1,
   (attach_then_detach_session_closed initWorld "S" "page" [] wf_initWorld
      (by intro f hf; exact absurd hf (List.not_mem_nil f))).2 "Foo.bar"⟩
